import Mathlib

/- Shallow embedding of the leavex-tools reconciliation and normalization
pipeline: the merge/override logic of `apply_meps_overrides.py`, the German-MP
deduplication pass of `deduplicate_mps_de.py`, the field normalizers of
`csv_to_json.py`, the URL handle logic of `get_de_mps.py`, and the
fill-if-empty merge of `get_de_mps_wikidata.py`.

JSON values are modeled by the inductive `JVal` (numbers as integers; the
modeled data files carry no non-integer numerics).  Python dictionaries are
modeled as insertion-ordered association lists with unique keys, `dict.get`
returning null for a missing key and item access raising `KeyError`.  Fallible
Python code (uncaught exceptions) is modeled with `Except String`.  All string
operations are re-implemented structurally over `List Char` so that every
definition evaluates inside the kernel. -/

-- ===== Python-style string primitives =====

/-- `leadsWith p cs` is true iff `p` is an initial segment of `cs`. -/
def leadsWith : List Char → List Char → Bool
  | [], _ => true
  | _ :: _, [] => false
  | p :: ps, c :: cs => p = c && leadsWith ps cs

/-- Worker for `splitOnL`; the fuel argument (initially the length of the
input) makes the recursion structural, each step consumes at least one
character. -/
def splitOnAuxL (sep : List Char) : Nat → List Char → List Char → List (List Char)
  | _, [], acc => [acc.reverse]
  | 0, cs, acc => [acc.reverse ++ cs]
  | fuel + 1, c :: cs, acc =>
    if leadsWith sep (c :: cs) then
      acc.reverse :: splitOnAuxL sep fuel (List.drop sep.length (c :: cs)) []
    else
      splitOnAuxL sep fuel cs (c :: acc)

/-- Split on every non-overlapping occurrence of a (nonempty) separator,
Python `str.split(sep)` / Lean `String.splitOn` semantics. -/
def splitOnL (cs sep : List Char) : List (List Char) :=
  if sep.isEmpty then [cs] else splitOnAuxL sep cs.length cs []

/-- Python `sep in s` (substring test) for nonempty `sep`. -/
def pyContains (s pat : String) : Bool := (splitOnL s.data pat.data).length > 1

/-- Python `sep.split` lifted to `String`. -/
def pySplit (s sep : String) : List String := (splitOnL s.data sep.data).map String.mk

/-- Python `sep.join`. -/
def joinWith (sep : String) : List String → String
  | [] => ""
  | [x] => x
  | x :: y :: xs => x ++ sep ++ joinWith sep (y :: xs)

/-- Python `s.replace(old, new)` (all non-overlapping occurrences). -/
def pyReplace (s old new : String) : String := joinWith new (pySplit s old)

/-- The ASCII whitespace recognized by Python `str.strip()` (the Unicode
extras never occur in the modeled data). -/
def isSpaceC (c : Char) : Bool :=
  c = ' ' || c = '\t' || c = '\n' || c = '\x0d' || c = '\x0b' || c = '\x0c'

/-- Python `s.strip()`. -/
def pyStrip (s : String) : String :=
  ⟨((s.data.dropWhile isSpaceC).reverse.dropWhile isSpaceC).reverse⟩

/-- Python `s.strip(ch)` for a one-character set. -/
def stripChar (s : String) (ch : Char) : String :=
  ⟨((s.data.dropWhile (fun c => c = ch)).reverse.dropWhile (fun c => c = ch)).reverse⟩

/-- Python `s.lstrip(ch)` for a one-character set. -/
def lstripChar (s : String) (ch : Char) : String :=
  ⟨s.data.dropWhile (fun c => c = ch)⟩

/-- Python `s.lower()` (ASCII; the modeled hosts are ASCII). -/
def pyLower (s : String) : String := ⟨s.data.map Char.toLower⟩

/-- Python `s.startswith(pre)`. -/
def pyStartsWith (s pre : String) : Bool := leadsWith pre.data s.data

/-- Python `s.endswith(post)`. -/
def pyEndsWith (s post : String) : Bool := leadsWith post.data.reverse s.data.reverse

-- ===== JSON values and Python dict operations =====

/-- JSON values as produced by `json.load`; numbers are modeled as integers
(the modeled data files carry no fractional numerics). -/
inductive JVal where
  | null
  | bool (b : Bool)
  | num (n : Int)
  | str (s : String)
  | arr (xs : List JVal)
  | obj (fs : List (String × JVal))
deriving Repr

/-- A Python dict with string keys: insertion-ordered association list. -/
abbrev Obj := List (String × JVal)

/-- Python truthiness of a JSON value. -/
def truthy : JVal → Bool
  | .null => false
  | .bool b => b
  | .num n => n != 0
  | .str s => !s.data.isEmpty
  | .arr xs => !xs.isEmpty
  | .obj fs => !fs.isEmpty

/-- Python `==` on the hashable JSON scalars (`True == 1`, `False == 0`);
arrays and objects are unhashable in Python and never occur as dict keys in
the modeled scripts (a `TypeError` is raised first, see `buildIndexAux` and
`dedupStep`), so they compare unequal here. -/
def jeq : JVal → JVal → Bool
  | .null, .null => true
  | .bool a, .bool b => a = b
  | .num a, .num b => a = b
  | .bool a, .num n => (if a then (1 : Int) else 0) = n
  | .num n, .bool a => n = (if a then (1 : Int) else 0)
  | .str a, .str b => a = b
  | _, _ => false

/-- Whether a value may be used as a Python dict key. -/
def hashable : JVal → Bool
  | .arr _ => false
  | .obj _ => false
  | _ => true

/-- Python `obj.get(k)`: the value under `k`, or `None` when absent. -/
def getD (o : Obj) (k : String) : JVal :=
  match o.find? (fun p => p.1 = k) with
  | some p => p.2
  | none => .null

/-- Python `obj[k]`: the value under `k`, `KeyError` when absent. -/
def getItem (o : Obj) (k : String) : Except String JVal :=
  match o.find? (fun p => p.1 = k) with
  | some p => .ok p.2
  | none => .error ("KeyError: " ++ k)

/-- Python `k in obj`. -/
def hasKey (o : Obj) (k : String) : Bool := (o.find? (fun p => p.1 = k)).isSome

/-- Python `obj[k] = v`: replace in place, else append (insertion order). -/
def setF : Obj → String → JVal → Obj
  | [], k, v => [(k, v)]
  | (k1, v1) :: rest, k, v =>
    if k1 = k then (k, v) :: rest else (k1, v1) :: setF rest k v

/-- Python `str()` of a value as interpolated into the scripts' f-strings
(composite values never reach the modeled f-strings). -/
def pyStr : JVal → String
  | .null => "None"
  | .bool true => "True"
  | .bool false => "False"
  | .num n => toString n
  | .str s => s
  | .arr _ => "[...]"
  | .obj _ => "..."

/-- Python `v is None`. -/
def isNullJ : JVal → Bool
  | .null => true
  | _ => false

/-- Python `v is False`. -/
def isFalseJ : JVal → Bool
  | .bool false => true
  | _ => false

/-- Python `v is True` (also `v == True` restricted to booleans). -/
def isTrueJ : JVal → Bool
  | .bool true => true
  | _ => false

/-- Whether the value is a Python `str`. -/
def isStrJ : JVal → Bool
  | .str _ => true
  | _ => false

/-- Whether the value is a JSON object (Python `dict`). -/
def isObjJ : JVal → Bool
  | .obj _ => true
  | _ => false

/-- Truthiness of an optional handle (`if handle:` on a str-or-None value). -/
def optTruthy : Option String → Bool
  | some s => !s.data.isEmpty
  | none => false

/-- `Except` success test. -/
def okB : Except String α → Bool
  | .ok _ => true
  | .error _ => false

-- ===== urllib.parse.urlparse (the fields the scripts read) =====

/-- The components of `urllib.parse.urlparse` consumed by the repository:
network location, path and query. -/
structure UrlParts where
  netloc : String
  path : String
  query : String
deriving Repr

/-- A valid URL scheme: a letter followed by letters, digits, `+`, `-`, `.`
(the check `urllib.parse` applies before splitting off a scheme). -/
def validScheme (s : String) : Bool :=
  match s.data with
  | [] => false
  | c :: cs => c.isAlpha && cs.all (fun x => x.isAlphanum || x = '+' || x = '-' || x = '.')

/-- Split at the first occurrence of `sep`: the part before it and, when
`sep` occurs, the part after it. -/
def splitFirst (s sep : String) : String × Option String :=
  match pySplit s sep with
  | [] => (s, none)
  | [a] => (a, none)
  | a :: b :: rest => (a, some (joinWith sep (b :: rest)))

/-- `urllib.parse.urlparse` restricted to netloc/path/query: drop the
fragment, strip a valid scheme, read a `//netloc` when present, split the
query at the first `?`. -/
def urlparse (v : String) : UrlParts :=
  let noFrag := (splitFirst v "#").1
  let rest :=
    match splitFirst noFrag ":" with
    | (sch, some tail) => if validScheme sch then tail else noFrag
    | (_, none) => noFrag
  if pyStartsWith rest "//" then
    let afterSlashes : List Char := rest.data.drop 2
    let netloc : List Char := afterSlashes.takeWhile (fun c => !(c = '/' || c = '?'))
    let remainder : List Char := afterSlashes.drop netloc.length
    let pq := splitFirst ⟨remainder⟩ "?"
    { netloc := ⟨netloc⟩, path := pq.1, query := (pq.2).getD "" }
  else
    let pq := splitFirst rest "?"
    { netloc := "", path := pq.1, query := (pq.2).getD "" }

-- ===== apply_meps_overrides.py : _extract_handle (lines 54-78) =====

/-- `_extract_handle` of `apply_meps_overrides.py`: None for a non-string or
blank value; for a value containing `://`, accept only an x.com/twitter.com
host and return the first path segment; otherwise strip leading `@`s and
whitespace. -/
def extract_handle : JVal → Option String
  | .str s0 =>
    let v := pyStrip s0
    if v.data.isEmpty then none
    else if pyContains v "://" then
      let p := urlparse v
      let host := pyLower p.netloc
      if pyEndsWith host "x.com" || pyEndsWith host "twitter.com" then
        let path := stripChar p.path '/'
        if path.data.isEmpty then none
        else
          let h := (pySplit path "/").headD ""
          if h.data.isEmpty then none else some h
      else none
    else
      let h := pyStrip (lstripChar v '@')
      if h.data.isEmpty then none else some h
  | _ => none

-- ===== get_de_mps.py : URL-to-handle logic (lines 146-169) =====

/-- The character class of the `screen_name` regex `[A-Za-z0-9_]`. -/
def snClass (c : Char) : Bool := c.isAlpha || c.isDigit || c = '_'

/-- `re.search(r"screen_name=([A-Za-z0-9_]{1,15})", q)`: the first
occurrence of `screen_name=` followed by at least one class character wins,
capturing greedily up to 15 characters. -/
def findScreenName (q : String) : Option String :=
  match pySplit q "screen_name=" with
  | [] => none
  | _ :: rest =>
    rest.findSome? (fun seg =>
      let run := seg.data.takeWhile snClass
      if run.isEmpty then none else some ⟨run.take 15⟩)

/-- The per-link URL logic of `extract_x_handle_from_bio_html`
(`get_de_mps.py` lines 146-169), applied to a selected link's href: first
non-empty path segment; an `intent` segment with a `screen_name=` query uses
the regex capture or fails; otherwise the segment is stripped of leading `@`
and re-prefixed (the `HANDLE_RE` test keeps the handle either way). -/
def handle_from_href (href : String) : Option String :=
  let p := urlparse href
  let parts := (pySplit p.path "/").filter (fun x => !x.data.isEmpty)
  match parts with
  | [] => none
  | candidate :: _ =>
    if pyLower candidate = "intent" && pyContains p.query "screen_name=" then
      match findScreenName p.query with
      | some g => some ("@" ++ g)
      | none => none
    else
      some ("@" ++ lstripChar candidate '@')

-- ===== csv_to_json.py : field normalizers =====

/-- The country table of `csv_to_json.py`. -/
def EU_COUNTRY_CODES : List (String × String) :=
  [("Austria", "AT"), ("Belgium", "BE"), ("Bulgaria", "BG"), ("Croatia", "HR"),
   ("Cyprus", "CY"), ("Czech Republic", "CZ"), ("Czechia", "CZ"),
   ("Denmark", "DK"), ("Estonia", "EE"), ("Finland", "FI"), ("France", "FR"),
   ("Germany", "DE"), ("Greece", "GR"), ("Hungary", "HU"), ("Ireland", "IE"),
   ("Italy", "IT"), ("Latvia", "LV"), ("Lithuania", "LT"), ("Luxembourg", "LU"),
   ("Malta", "MT"), ("Netherlands", "NL"), ("Poland", "PL"), ("Portugal", "PT"),
   ("Romania", "RO"), ("Slovakia", "SK"), ("Slovenia", "SI"), ("Spain", "ES"),
   ("Sweden", "SE")]

/-- The EU political-group table of `csv_to_json.py`. -/
def EU_GROUP_MAP : List (String × String) :=
  [("Group of the European People's Party (Christian Democrats)", "EPP"),
   ("Group of the Progressive Alliance of Socialists and Democrats in the European Parliament", "S&D"),
   ("Renew Europe Group", "Renew"),
   ("Group of the Greens/European Free Alliance", "Greens/EFA"),
   ("European Conservatives and Reformists Group", "ECR"),
   ("Identity and Democracy Group", "ID"),
   ("The Left group in the European Parliament - GUE/NGL", "The Left"),
   ("Non-attached Members", "NI")]

/-- `dict.get` on a string-to-string table. -/
def lookupTbl (m : List (String × String)) (k : String) : Option String :=
  (m.find? (fun p => p.1 = k)).map (fun p => p.2)

/-- `country_to_code` of `csv_to_json.py`, value plus emitted diagnostics;
`.strip()` on a truthy non-string raises (`AttributeError`). -/
def country_to_code (v : JVal) : Except String (Option String × List String) :=
  if !truthy v then .ok (none, [])
  else
    match v with
    | .str s =>
      match lookupTbl EU_COUNTRY_CODES (pyStrip s) with
      | some code => .ok (some code, [])
      | none => .ok (none, ["[WARN] No country code mapping for: '" ++ pyStrip s ++ "'"])
    | _ => .error "AttributeError: strip on non-string"

/-- `normalize_x_handle` of `csv_to_json.py`. -/
def normalize_x_handle (v : JVal) : Except String (Option String) :=
  if !truthy v then .ok none
  else
    match v with
    | .str s =>
      if (pyStrip s).data.isEmpty then .ok none
      else if pyStartsWith (pyStrip s) "@" then .ok (some (pyStrip s))
      else .ok (some ("@" ++ pyStrip s))
    | _ => .error "AttributeError: strip on non-string"

/-- `map_eu_group_to_short` of `csv_to_json.py` (fallback to the full text
when unmapped). -/
def map_eu_group_to_short (v : JVal) : Except String (Option String) :=
  if !truthy v then .ok none
  else
    match v with
    | .str s => .ok (some ((lookupTbl EU_GROUP_MAP (pyStrip s)).getD (pyStrip s)))
    | _ => .error "AttributeError: strip on non-string"

/-- `normalize_name` of `csv_to_json.py`: strip a leading `Home` scraper
artifact and trim. -/
def normalize_name (v : JVal) : Except String String :=
  if !truthy v then .ok ""
  else
    match v with
    | .str s =>
      .ok (if pyStartsWith (pyStrip s) "Home" then pyStrip ⟨(pyStrip s).data.drop 4⟩
        else pyStrip s)
    | _ => .error "AttributeError: strip on non-string"

-- ===== apply_meps_overrides.py : normalize_x_fields (lines 81-107) =====

/-- `normalize_x_fields` of `apply_meps_overrides.py`: explicit `usesX is
False` nulls the handle; an extractable handle is canonicalized to `@handle`
and sets `usesX` when it was absent; otherwise an absent flag becomes false
and a false flag nulls the handle. -/
def normalize_x_fields (o : Obj) : Obj :=
  let uses := getD o "usesX"
  let xh := getD o "xHandle"
  let handle := extract_handle xh
  if isFalseJ uses then setF o "xHandle" .null
  else if optTruthy handle then
    let o1 := setF o "xHandle" (.str ("@" ++ handle.getD ""))
    if isNullJ uses then setF o1 "usesX" (.bool true) else o1
  else
    let o1 := if isNullJ uses then setF o "usesX" (.bool false) else o
    if isFalseJ (getD o1 "usesX") then setF o1 "xHandle" .null else o1

-- ===== apply_meps_overrides.py : main (lines 31-138) =====

/-- Lookup in the id index (a Python dict keyed by JSON scalar ids, modeled
as id-to-position pairs into the base list). -/
def lookupIdx (ix : List (JVal × Nat)) (k : JVal) : Option Nat :=
  match ix.find? (fun p => jeq p.1 k) with
  | some p => some p.2
  | none => none

/-- Dict write on the id index. -/
def setIdx : List (JVal × Nat) → JVal → Nat → List (JVal × Nat)
  | [], k, n => [(k, n)]
  | (k1, n1) :: rest, k, n =>
    if jeq k1 k then (k, n) :: rest else (k1, n1) :: setIdx rest k n

/-- Index construction of `main` (lines 46-52): index every truthy id by its
position (later occurrences win), warning on each duplicate; an unhashable
id raises `TypeError` in Python. -/
def buildIndexAux : List Obj → Nat → List (JVal × Nat) → List String →
    Except String (List (JVal × Nat) × List String)
  | [], _, ix, ds => .ok (ix, ds)
  | o :: rest, pos, ix, ds =>
    if truthy (getD o "id") then
      if hashable (getD o "id") then
        buildIndexAux rest (pos + 1) (setIdx ix (getD o "id") pos)
          (if (lookupIdx ix (getD o "id")).isSome then
            ds ++ ["[WARN] Duplicate id in base data: " ++ pyStr (getD o "id")]
          else ds)
      else .error "TypeError: unhashable id"
    else buildIndexAux rest (pos + 1) ix ds

/-- The mutable run state of `main`: the `base_data` list, the id index
(positions stand for Python's object references), and the printed
diagnostics. -/
structure MState where
  base : List Obj
  index : List (JVal × Nat)
  diags : List String
deriving Repr

/-- Python `base_obj.update(override_data)` / the key-by-key write loop:
every override pair is written onto the object, last key wins. -/
def applyObjFields (o : Obj) (fs : Obj) : Obj :=
  fs.foldl (fun acc kv => setF acc kv.1 kv.2) o

/-- In-place update of the list element at a position (Python mutation
through an aliased reference). -/
def modIdx : List Obj → Nat → (Obj → Obj) → List Obj
  | [], _, _ => []
  | o :: rest, 0, f => f o :: rest
  | o :: rest, n + 1, f => o :: modIdx rest n f

/-- One iteration of the override loop of `main` (lines 114-131): skip a
non-object entry with a warning; write all fields onto the indexed record
when the id is found; otherwise append a fresh stub `{"id": key} ∪ fields`
and index it. -/
def ovStep (st : MState) (entry : String × JVal) : MState :=
  match entry.2 with
  | .obj fields =>
    match lookupIdx st.index (.str entry.1) with
    | some pos =>
      { base := modIdx st.base pos (fun o => applyObjFields o fields)
        index := st.index
        diags := st.diags ++ ["[INFO] Applying override to existing MEP: " ++ entry.1] }
    | none =>
      { base := st.base ++ [applyObjFields [("id", .str entry.1)] fields]
        index := setIdx st.index (.str entry.1) st.base.length
        diags := st.diags ++
          ["[WARN] Override id " ++ entry.1 ++ " not found in base data; creating stub entry."] }
  | _ =>
    { st with diags := st.diags ++
        ["[WARN] Override for " ++ entry.1 ++ " is not an object, skipping."] }

/-- The elements of the base array must be objects: `obj.get` on anything
else raises `AttributeError` in the index loop. -/
def toObjs : List JVal → Except String (List Obj)
  | [] => .ok []
  | .obj fs :: rest => (toObjs rest).map (fun l => fs :: l)
  | _ :: _ => .error "AttributeError: get on non-object base element"

/-- `main` of `apply_meps_overrides.py` on already-loaded JSON: top-level
shape checks (fatal), id index with duplicate warnings, the
`normalize_x_fields` pass over the base records (the source runs it before
the override loop), then the override loop.  Returns the final record list
and the printed diagnostics. -/
def mainRun (baseJ ovJ : JVal) : Except String (List Obj × List String) :=
  match baseJ with
  | .arr items =>
    match ovJ with
    | .obj ovFields =>
      match toObjs items with
      | .error e => .error e
      | .ok objs =>
        match buildIndexAux objs 0 [] [] with
        | .error e => .error e
        | .ok (ix, ds) =>
          let normed := objs.map normalize_x_fields
          let st := ovFields.foldl ovStep { base := normed, index := ix, diags := ds }
          .ok (st.base, st.diags)
    | _ => .error "meps_overrides.json must be a JSON object keyed by MEP id."
  | _ => .error "meps_all.json must be a JSON array (list of objects)."

-- ===== deduplicate_mps_de.py =====

/-- The German party table of `deduplicate_mps_de.py`. -/
def PARTY_MAP : List (String × String) :=
  [("Sozialdemokratische Partei Deutschlands", "spd"),
   ("Christlich Demokratische Union", "cdu"),
   ("Christlich-Soziale Union in Bayern", "csu"),
   ("Bündnis 90/Die Grünen", "gruene"),
   ("Die Grünen", "gruene"),
   ("Freie Demokratische Partei", "fdp"),
   ("Alternative für Deutschland", "afd"),
   ("Die Linke", "linke"),
   ("Partei des Demokratischen Sozialismus", "linke"),
   ("Arbeit & soziale Gerechtigkeit – Die Wahlalternative", "linke"),
   ("Bündnis Sahra Wagenknecht – Vernunft und Gerechtigkeit", "bsw")]

/-- The usage-flag test `r.get("usesX") in ("1", 1, True)` (tuple membership
under Python `==`). -/
def usesTrigger (v : JVal) : Bool :=
  jeq v (.str "1") || jeq v (.num 1) || jeq v (.bool true)

/-- The fresh base record built on first sight of a qid (lines 31-44). -/
def baseMp (qid : JVal) (r : Obj) : Obj :=
  [("id", .str ("mp_de_" ++ pyStr qid)),
   ("qid", qid),
   ("name", getD r "name"),
   ("country", .str "Germany"),
   ("countryCode", .str "DE"),
   ("level", .str "national"),
   ("institution", .str "Bundestag"),
   ("role", .str "MP"),
   ("party", .null),
   ("email", .null),
   ("usesX", .bool false),
   ("xHandle", .null)]

/-- The party branch of the row loop (lines 47-49): fill `party` if the row
has one and the record's is empty, mapping through `PARTY_MAP` with verbatim
fallback; item access on the record raises when the key is absent. -/
def mapParty : JVal → JVal
  | .str s =>
    match lookupTbl PARTY_MAP s with
    | some c => .str c
    | none => .str s
  | other => other

def mergeParty (mp r : Obj) : Except String Obj :=
  if truthy (getD r "party") then
    match getItem mp "party" with
    | .error e => .error e
    | .ok pCur =>
      if !truthy pCur then .ok (setF mp "party" (mapParty (getD r "party")))
      else .ok mp
  else .ok mp

/-- The email branch of the row loop (lines 51-56): fill `email` if the row
has one and the record's is empty, stripping `mailto:`; `startswith` on a
truthy non-string raises. -/
def mergeEmail (mp r : Obj) : Except String Obj :=
  if truthy (getD r "email") then
    match getItem mp "email" with
    | .error e => .error e
    | .ok eCur =>
      if !truthy eCur then
        match getD r "email" with
        | .str s =>
          .ok (setF mp "email"
            (.str (if pyStartsWith s "mailto:" then pyReplace s "mailto:" "" else s)))
        | _ => .error "AttributeError: startswith on non-string"
      else .ok mp
  else .ok mp

/-- The X branch of the row loop (lines 58-63): on a triggered usage flag,
set `usesX = True` and fill the handle if currently empty and present in
the row. -/
def mergeUses (mp r : Obj) : Except String Obj :=
  if usesTrigger (getD r "usesX") then
    match getItem (setF mp "usesX" (.bool true)) "xHandle" with
    | .error e => .error e
    | .ok xCur =>
      if !truthy xCur && truthy (getD r "xHandle") then
        match getItem r "xHandle" with
        | .error e => .error e
        | .ok xh => .ok (setF (setF mp "usesX" (.bool true)) "xHandle" xh)
      else .ok (setF mp "usesX" (.bool true))
  else .ok mp

/-- The merge body of the row loop (lines 46-63), in source order: party,
then email, then the usage flag and handle. -/
def mergeInto (mp : Obj) (r : Obj) : Except String Obj :=
  match mergeParty mp r with
  | .error e => .error e
  | .ok mp1 =>
    match mergeEmail mp1 r with
    | .error e => .error e
    | .ok mp2 => mergeUses mp2 r

/-- Dict lookup in the qid-keyed accumulator. -/
def lookupAssoc (mps : List (JVal × Obj)) (k : JVal) : Option Obj :=
  (mps.find? (fun p => jeq p.1 k)).map (fun p => p.2)

/-- Dict write in the qid-keyed accumulator (existing key keeps its slot). -/
def updateAssoc : List (JVal × Obj) → JVal → Obj → List (JVal × Obj)
  | [], k, v => [(k, v)]
  | (k1, v1) :: rest, k, v =>
    if jeq k1 k then (k1, v) :: rest else (k1, v1) :: updateAssoc rest k v

/-- One iteration of the row loop of `deduplicate_mps_de.py`: `r["qid"]`
(KeyError when absent, TypeError on a non-object row or unhashable qid),
create the base record on first sight, then merge the row in. -/
def dedupStep (mps : List (JVal × Obj)) (rj : JVal) : Except String (List (JVal × Obj)) :=
  match rj with
  | .obj r =>
    match getItem r "qid" with
    | .error e => .error e
    | .ok qid =>
      if hashable qid then
        match lookupAssoc mps qid with
        | some mp =>
          match mergeInto mp r with
          | .ok mp2 => .ok (updateAssoc mps qid mp2)
          | .error e => .error e
        | none =>
          match mergeInto (baseMp qid r) r with
          | .ok mp2 => .ok (mps ++ [(qid, mp2)])
          | .error e => .error e
      else .error "TypeError: unhashable qid"
  | _ => .error "TypeError: row is not an object"

/-- The whole deduplication pass: fold the row loop, then
`clean = list(mps.values())` plus the three printed summary lines (the
script emits no other diagnostics). -/
def dedupRun (rows : List JVal) : Except String (List Obj × List String) :=
  match rows.foldlM dedupStep [] with
  | .error e => .error e
  | .ok mps =>
    let clean := mps.map (fun p => p.2)
    .ok (clean,
      ["Raw rows: " ++ toString rows.length,
       "Unique MPs: " ++ toString clean.length,
       "MPs with X: " ++ toString (clean.filter (fun m => truthy (getD m "usesX"))).length])

-- ===== get_de_mps_wikidata.py : merge body (lines 79-89) =====

/-- Read `b[field]["value"]` from a SPARQL binding. -/
def bindingValue (b : Obj) (field : String) : Except String JVal :=
  match getItem b field with
  | .error e => .error e
  | .ok (.obj f) => getItem f "value"
  | .ok _ => .error "TypeError: subscript on non-object"

/-- Wikidata merge, party branch (lines 80-81): fill `party` from the
binding when the record's is empty. -/
def bindParty (mp b : Obj) : Except String Obj :=
  match getItem mp "party" with
  | .error e => .error e
  | .ok pCur =>
    if !truthy pCur && hasKey b "partyName" then
      match bindingValue b "partyName" with
      | .error e => .error e
      | .ok v => .ok (setF mp "party" v)
    else .ok mp

/-- Wikidata merge, email branch (lines 83-84). -/
def bindEmail (mp b : Obj) : Except String Obj :=
  match getItem mp "email" with
  | .error e => .error e
  | .ok eCur =>
    if !truthy eCur && hasKey b "email" then
      match bindingValue b "email" with
      | .error e => .error e
      | .ok v => .ok (setF mp "email" v)
    else .ok mp

/-- Wikidata merge, X branch (lines 86-89): a falsy `usesX` together with an
`x` binding sets `usesX = True` and overwrites the handle with
`"@" + value`. -/
def bindUses (mp b : Obj) : Except String Obj :=
  match getItem mp "usesX" with
  | .error e => .error e
  | .ok uCur =>
    if !truthy uCur && hasKey b "x" then
      match bindingValue b "x" with
      | .error e => .error e
      | .ok v =>
        .ok (setF (setF mp "usesX" (.bool true)) "xHandle" (.str ("@" ++ pyStr v)))
    else .ok mp

/-- The fill-if-empty merge of one SPARQL binding into an existing record
(`get_de_mps_wikidata.py` lines 79-89), in source order. -/
def mergeBinding (mp : Obj) (b : Obj) : Except String Obj :=
  match bindParty mp b with
  | .error e => .error e
  | .ok mp1 =>
    match bindEmail mp1 b with
    | .error e => .error e
    | .ok mp2 => bindUses mp2 b

-- ===== The usage/handle invariant of spec section 3 =====

/-- The spec's record invariant: `usesX == false` implies a null handle, and
a non-null handle implies `usesX == true`. -/
def xInvariantB (o : Obj) : Bool :=
  (!isFalseJ (getD o "usesX") || isNullJ (getD o "xHandle")) &&
  (isNullJ (getD o "xHandle") || isTrueJ (getD o "usesX"))

-- ===== Basic lemmas on the dict model =====

theorem getD_setF_same (o : Obj) (k : String) (v : JVal) : getD (setF o k v) k = v := by
  induction o with
  | nil => simp [setF, getD, List.find?]
  | cons p rest ih =>
    obtain ⟨k1, v1⟩ := p
    by_cases h : k1 = k
    · simp [setF, h, getD, List.find?]
    · simp [setF, h, getD, List.find?]
      simpa [getD] using ih

theorem getD_setF_other (o : Obj) (k1 k : String) (v : JVal) (h : k1 ≠ k) :
    getD (setF o k1 v) k = getD o k := by
  induction o with
  | nil => simp [setF, getD, List.find?, h]
  | cons p rest ih =>
    obtain ⟨k2, v2⟩ := p
    by_cases h2 : k2 = k1
    · subst h2
      simp [setF, getD, List.find?, h]
    · have h2s : ¬(k2 = k1) := h2
      by_cases h3 : k2 = k
      · subst h3
        have hk1 : ¬(k2 = k1) := h2
        simp [setF, hk1, getD, List.find?]
      · simp [setF, h2s, getD, List.find?, h3]
        simpa [getD] using ih

theorem getItem_ok_getD (o : Obj) (k : String) (v : JVal) (h : getItem o k = .ok v) :
    getD o k = v := by
  unfold getItem at h
  unfold getD
  cases hf : o.find? (fun p => p.1 = k) with
  | none => simp [hf] at h
  | some p => simp [hf] at h ⊢; exact h

theorem getItem_of_truthy (o : Obj) (k : String) (h : truthy (getD o k) = true) :
    getItem o k = .ok (getD o k) := by
  unfold getItem getD at *
  cases hf : o.find? (fun p => p.1 = k) with
  | none => rw [hf] at h; simp [truthy] at h
  | some p => simp [hf]

theorem getD_applyObjFields_not_mem (fs : Obj) (o : Obj) (k : String)
    (h : k ∉ fs.map Prod.fst) : getD (applyObjFields o fs) k = getD o k := by
  induction fs generalizing o with
  | nil => simp [applyObjFields]
  | cons p rest ih =>
    obtain ⟨k1, v1⟩ := p
    rw [List.map_cons] at h
    have h1 : k1 ≠ k := fun hh => h (by simp [hh])
    have h2 : k ∉ rest.map Prod.fst := fun hm => h (List.mem_cons_of_mem _ hm)
    have hstep : applyObjFields o ((k1, v1) :: rest) = applyObjFields (setF o k1 v1) rest := rfl
    rw [hstep, ih (setF o k1 v1) h2, getD_setF_other _ _ _ _ h1]

theorem getD_applyObjFields_mem (fs : Obj) (o : Obj) (k : String) (v : JVal)
    (hnd : (fs.map Prod.fst).Nodup) (hmem : (k, v) ∈ fs) :
    getD (applyObjFields o fs) k = v := by
  induction fs generalizing o with
  | nil => simp at hmem
  | cons p rest ih =>
    obtain ⟨k1, v1⟩ := p
    rw [List.map_cons] at hnd
    have hnd1 := (List.nodup_cons.mp hnd).1
    have hnd2 := (List.nodup_cons.mp hnd).2
    have hstep : applyObjFields o ((k1, v1) :: rest) = applyObjFields (setF o k1 v1) rest := rfl
    rcases List.mem_cons.mp hmem with heq | htail
    · cases heq
      rw [hstep, getD_applyObjFields_not_mem rest _ k hnd1, getD_setF_same]
    · rw [hstep]
      exact ih (setF o k1 v1) hnd2 htail

theorem modIdx_length (l : List Obj) (i : Nat) (f : Obj → Obj) :
    (modIdx l i f).length = l.length := by
  induction l generalizing i with
  | nil => simp [modIdx]
  | cons o rest ih =>
    cases i with
    | zero => simp [modIdx]
    | succ n => simp [modIdx, ih]

theorem getElem?_modIdx_ne (l : List Obj) (i j : Nat) (f : Obj → Obj) (h : i ≠ j) :
    (modIdx l i f)[j]? = l[j]? := by
  induction l generalizing i j with
  | nil => simp [modIdx]
  | cons o rest ih =>
    cases i with
    | zero =>
      cases j with
      | zero => exact absurd rfl h
      | succ m => simp [modIdx]
    | succ n =>
      cases j with
      | zero => simp [modIdx]
      | succ m =>
        simp only [modIdx, List.getElem?_cons_succ]
        exact ih n m (by omega)

theorem getElem?_modIdx_self (l : List Obj) (i : Nat) (f : Obj → Obj) :
    (modIdx l i f)[i]? = (l[i]?).map f := by
  induction l generalizing i with
  | nil => simp [modIdx]
  | cons o rest ih =>
    cases i with
    | zero => simp [modIdx]
    | succ n => simp only [modIdx, List.getElem?_cons_succ]; exact ih n

-- ===== Lemmas on the id index =====

theorem jeq_str_refl (s : String) : jeq (.str s) (.str s) = true := by simp [jeq]

theorem jeq_str_right (a : JVal) (s : String) (h : jeq a (.str s) = true) : a = .str s := by
  cases a <;> simp_all [jeq]

theorem jeq_str_of_ne (a b : String) (h : a ≠ b) : jeq (.str a) (.str b) = false := by
  simp [jeq, h]

theorem lookupIdx_some (ix : List (JVal × Nat)) (k : JVal) (p : Nat)
    (h : lookupIdx ix k = some p) : ∃ a, (a, p) ∈ ix ∧ jeq a k = true := by
  unfold lookupIdx at h
  cases hf : ix.find? (fun e => jeq e.1 k) with
  | none => rw [hf] at h; simp at h
  | some e =>
    rw [hf] at h
    simp at h
    have hp := List.find?_some hf
    refine ⟨e.1, ?_, by simpa using hp⟩
    have := List.mem_of_find?_eq_some hf
    rwa [← h, Prod.mk.eta]

theorem lookupIdx_none_iff (ix : List (JVal × Nat)) (k : JVal) :
    lookupIdx ix k = none ↔ ∀ e ∈ ix, jeq e.1 k = false := by
  unfold lookupIdx
  constructor
  · intro h e he
    cases hf : ix.find? (fun q => jeq q.1 k) with
    | none =>
      have := List.find?_eq_none.mp hf e he
      simpa using this
    | some q => rw [hf] at h; simp at h
  · intro hall
    have hn : ix.find? (fun q => jeq q.1 k) = none :=
      List.find?_eq_none.mpr (fun e he => by simp [hall e he])
    rw [hn]

theorem setIdx_of_absent (ix : List (JVal × Nat)) (k : JVal) (n : Nat)
    (h : ∀ e ∈ ix, jeq e.1 k = false) : setIdx ix k n = ix ++ [(k, n)] := by
  induction ix with
  | nil => simp [setIdx]
  | cons e rest ih =>
    obtain ⟨k1, n1⟩ := e
    have h1 : jeq k1 k = false := h (k1, n1) (List.mem_cons_self _ _)
    simp [setIdx, h1]
    exact ih (fun e he => h e (List.mem_cons_of_mem _ he))

theorem lookupIdx_append_left (ix l2 : List (JVal × Nat)) (k : JVal) (p : Nat)
    (h : lookupIdx ix k = some p) : lookupIdx (ix ++ l2) k = some p := by
  unfold lookupIdx at h ⊢
  rw [List.find?_append]
  cases hf : ix.find? (fun e => jeq e.1 k) with
  | none => rw [hf] at h; simp at h
  | some e =>
    rw [hf] at h
    simp [Option.or] at h ⊢
    exact h

theorem lookupIdx_append_self_str (ix : List (JVal × Nat)) (s : String) (n : Nat)
    (h : lookupIdx ix (.str s) = none) :
    lookupIdx (ix ++ [(.str s, n)]) (.str s) = some n := by
  unfold lookupIdx at h ⊢
  rw [List.find?_append]
  cases hf : ix.find? (fun e => jeq e.1 (JVal.str s)) with
  | some e => rw [hf] at h; simp at h
  | none => simp [Option.or, List.find?, jeq_str_refl]

theorem lookupIdx_append_of_absent (ix l2 : List (JVal × Nat)) (k : JVal)
    (h : lookupIdx ix k = none) : lookupIdx (ix ++ l2) k = lookupIdx l2 k := by
  unfold lookupIdx at h ⊢
  rw [List.find?_append]
  cases hf : ix.find? (fun e => jeq e.1 k) with
  | some e => rw [hf] at h; simp at h
  | none => simp [Option.or]

-- ===== Position invariants of the id index =====

theorem setIdx_cons_found (k1 : JVal) (n1 : Nat) (rest : List (JVal × Nat)) (k : JVal)
    (n : Nat) (hj : jeq k1 k = true) :
    setIdx ((k1, n1) :: rest) k n = (k, n) :: rest := by
  simp [setIdx, hj]

theorem setIdx_cons_miss (k1 : JVal) (n1 : Nat) (rest : List (JVal × Nat)) (k : JVal)
    (n : Nat) (hj : jeq k1 k = false) :
    setIdx ((k1, n1) :: rest) k n = (k1, n1) :: setIdx rest k n := by
  simp [setIdx, hj]

theorem setIdx_snd_mem (ix : List (JVal × Nat)) (k : JVal) (n : Nat) :
    ∀ p ∈ (setIdx ix k n).map Prod.snd, p = n ∨ p ∈ ix.map Prod.snd := by
  induction ix with
  | nil =>
    intro p hp
    simp [setIdx] at hp
    exact Or.inl hp
  | cons e rest ih =>
    obtain ⟨k1, n1⟩ := e
    intro p hp
    by_cases hj : jeq k1 k = true
    · rw [setIdx_cons_found k1 n1 rest k n hj, List.map_cons, List.mem_cons] at hp
      rcases hp with h1 | h1
      · exact Or.inl h1
      · exact Or.inr (by rw [List.map_cons, List.mem_cons]; exact Or.inr h1)
    · have hj2 : jeq k1 k = false := by simpa using hj
      rw [setIdx_cons_miss k1 n1 rest k n hj2, List.map_cons, List.mem_cons] at hp
      rcases hp with h1 | h1
      · exact Or.inr (by rw [List.map_cons, List.mem_cons]; exact Or.inl h1)
      · rcases ih p h1 with h2 | h2
        · exact Or.inl h2
        · exact Or.inr (by rw [List.map_cons, List.mem_cons]; exact Or.inr h2)

theorem setIdx_snd_nodup (ix : List (JVal × Nat)) (k : JVal) (n : Nat)
    (hnd : (ix.map Prod.snd).Nodup) (hlt : ∀ p ∈ ix.map Prod.snd, p < n) :
    ((setIdx ix k n).map Prod.snd).Nodup := by
  induction ix with
  | nil => simp [setIdx]
  | cons e rest ih =>
    obtain ⟨k1, n1⟩ := e
    rw [List.map_cons] at hnd
    have hnd1 := (List.nodup_cons.mp hnd).1
    have hnd2 := (List.nodup_cons.mp hnd).2
    by_cases hj : jeq k1 k = true
    · rw [setIdx_cons_found k1 n1 rest k n hj, List.map_cons]
      refine List.nodup_cons.mpr ⟨?_, hnd2⟩
      intro hmem
      have := hlt n (by rw [List.map_cons, List.mem_cons]; exact Or.inr hmem)
      omega
    · have hj2 : jeq k1 k = false := by simpa using hj
      rw [setIdx_cons_miss k1 n1 rest k n hj2, List.map_cons]
      refine List.nodup_cons.mpr ⟨?_, ?_⟩
      · intro hmem
        rcases setIdx_snd_mem rest k n n1 hmem with h | h
        · have := hlt n1 (by rw [List.map_cons, List.mem_cons]; exact Or.inl rfl)
          omega
        · exact hnd1 h
      · exact ih hnd2 (fun p hp => hlt p (by rw [List.map_cons, List.mem_cons]; exact Or.inr hp))

/-- The invariant of the override-loop state: index positions are pairwise
distinct and in bounds (they model Python references into `base_data`). -/
def StInv (st : MState) : Prop :=
  (st.index.map Prod.snd).Nodup ∧ ∀ p ∈ st.index.map Prod.snd, p < st.base.length

theorem lookupIdx_lt (st : MState) (k : JVal) (p : Nat) (hinv : StInv st)
    (h : lookupIdx st.index k = some p) : p < st.base.length := by
  obtain ⟨a, hmem, _⟩ := lookupIdx_some _ _ _ h
  exact hinv.2 p (List.mem_map.mpr ⟨(a, p), hmem, rfl⟩)

theorem lookupIdx_inj (ix : List (JVal × Nat)) (a b : String) (p : Nat)
    (hnd : (ix.map Prod.snd).Nodup)
    (ha : lookupIdx ix (.str a) = some p) (hb : lookupIdx ix (.str b) = some p) :
    a = b := by
  obtain ⟨x, hxmem, hxeq⟩ := lookupIdx_some _ _ _ ha
  obtain ⟨y, hymem, hyeq⟩ := lookupIdx_some _ _ _ hb
  have hx : x = .str a := jeq_str_right _ _ hxeq
  have hy : y = .str b := jeq_str_right _ _ hyeq
  have hpair : (x, p) = (y, p) := List.inj_on_of_nodup_map hnd hxmem hymem rfl
  have hxy : x = y := by injection hpair
  rw [hx, hy] at hxy
  injection hxy

theorem buildIndexAux_inv (objs : List Obj) (pos : Nat) (ix : List (JVal × Nat))
    (ds : List String) (ix2 : List (JVal × Nat)) (ds2 : List String)
    (h : buildIndexAux objs pos ix ds = .ok (ix2, ds2))
    (hnd : (ix.map Prod.snd).Nodup) (hlt : ∀ p ∈ ix.map Prod.snd, p < pos) :
    (ix2.map Prod.snd).Nodup ∧ ∀ p ∈ ix2.map Prod.snd, p < pos + objs.length := by
  induction objs generalizing pos ix ds with
  | nil =>
    simp [buildIndexAux] at h
    obtain ⟨h1, h2⟩ := h
    subst h1; subst h2
    exact ⟨hnd, fun p hp => by have := hlt p hp; omega⟩
  | cons o rest ih =>
    unfold buildIndexAux at h
    by_cases ht : truthy (getD o "id") = true
    · rw [if_pos ht] at h
      by_cases hh : hashable (getD o "id") = true
      · rw [if_pos hh] at h
        have hres := ih (pos + 1) (setIdx ix (getD o "id") pos) _ h
          (setIdx_snd_nodup _ _ _ hnd hlt)
          (fun p hp => by
            rcases setIdx_snd_mem ix (getD o "id") pos p hp with h2 | h2
            · omega
            · have := hlt p h2; omega)
        refine ⟨hres.1, fun p hp => ?_⟩
        have := hres.2 p hp
        simp only [List.length_cons]
        omega
      · rw [if_neg (by simpa using hh)] at h
        simp at h
    · rw [if_neg (by simpa using ht)] at h
      have hres := ih (pos + 1) ix ds h hnd (fun p hp => by have := hlt p hp; omega)
      refine ⟨hres.1, fun p hp => ?_⟩
      have := hres.2 p hp
      simp only [List.length_cons]
      omega

theorem ovStep_inv (st : MState) (e : String × JVal) (hinv : StInv st) :
    StInv (ovStep st e) := by
  obtain ⟨mid, v⟩ := e
  cases v with
  | obj fields =>
    unfold ovStep
    cases hl : lookupIdx st.index (.str mid) with
    | some pos =>
      refine ⟨hinv.1, fun p hp => ?_⟩
      rw [modIdx_length]
      exact hinv.2 p hp
    | none =>
      have habs : ∀ e2 ∈ st.index, jeq e2.1 (JVal.str mid) = false :=
        (lookupIdx_none_iff _ _).mp hl
      rw [setIdx_of_absent _ _ _ habs]
      constructor
      · rw [List.map_append]
        simp only [List.map_cons, List.map_nil]
        rw [List.nodup_append]
        refine ⟨hinv.1, List.nodup_singleton _, ?_⟩
        intro p hp hq
        simp at hq
        subst hq
        have := hinv.2 _ hp
        omega
      · intro p hp
        rw [List.map_append] at hp
        simp only [List.length_append, List.length_cons, List.length_nil]
        rcases List.mem_append.mp hp with h2 | h2
        · have := hinv.2 p h2; omega
        · simp at h2; omega
  | null => exact hinv
  | bool b => exact hinv
  | num n => exact hinv
  | str s => exact hinv
  | arr xs => exact hinv

-- ===== Lemmas on the override fold =====

theorem getElem?_append_lt (l1 l2 : List Obj) (n : Nat) (h : n < l1.length) :
    (l1 ++ l2)[n]? = l1[n]? := by
  rw [List.getElem?_append]
  simp [h]

theorem ovStep_other (st : MState) (e : String × JVal) (mid : String) (pos : Nat)
    (hinv : StInv st) (hl : lookupIdx st.index (.str mid) = some pos)
    (hne : e.1 ≠ mid) :
    lookupIdx (ovStep st e).index (.str mid) = some pos ∧
    (ovStep st e).base[pos]? = st.base[pos]? := by
  obtain ⟨id1, v⟩ := e
  simp only at hne
  cases v with
  | obj fields =>
    unfold ovStep
    cases hl2 : lookupIdx st.index (.str id1) with
    | some p2 =>
      simp only
      have hp2ne : p2 ≠ pos := fun hc =>
        hne (lookupIdx_inj st.index id1 mid pos hinv.1 (hc ▸ hl2) hl)
      exact ⟨hl, getElem?_modIdx_ne st.base p2 pos _ hp2ne⟩
    | none =>
      simp only
      have habs := (lookupIdx_none_iff _ _).mp hl2
      refine ⟨?_, ?_⟩
      · rw [setIdx_of_absent _ _ _ habs]
        exact lookupIdx_append_left _ _ _ _ hl
      · exact getElem?_append_lt _ _ _ (lookupIdx_lt st _ _ hinv hl)
  | null => exact ⟨hl, rfl⟩
  | bool b => exact ⟨hl, rfl⟩
  | num n => exact ⟨hl, rfl⟩
  | str s => exact ⟨hl, rfl⟩
  | arr xs => exact ⟨hl, rfl⟩

theorem foldl_ovStep_stable (l : List (String × JVal)) (st : MState) (mid : String)
    (pos : Nat) (hinv : StInv st)
    (hl : lookupIdx st.index (.str mid) = some pos)
    (hk : ∀ e ∈ l, e.1 ≠ mid) :
    StInv (l.foldl ovStep st) ∧
    lookupIdx (l.foldl ovStep st).index (.str mid) = some pos ∧
    (l.foldl ovStep st).base[pos]? = st.base[pos]? := by
  induction l generalizing st with
  | nil => exact ⟨hinv, hl, rfl⟩
  | cons e rest ih =>
    rw [List.foldl_cons]
    have hne : e.1 ≠ mid := hk e (List.mem_cons_self _ _)
    have hkr : ∀ x ∈ rest, x.1 ≠ mid := fun x hx => hk x (List.mem_cons_of_mem _ hx)
    have h1 := ovStep_other st e mid pos hinv hl hne
    have hinv2 := ovStep_inv st e hinv
    have hrec := ih (ovStep st e) hinv2 h1.1 hkr
    exact ⟨hrec.1, hrec.2.1, by rw [hrec.2.2, h1.2]⟩

theorem ovStep_none (st : MState) (e : String × JVal) (mid : String)
    (hnone : lookupIdx st.index (.str mid) = none) (hne : e.1 ≠ mid) :
    lookupIdx (ovStep st e).index (.str mid) = none ∧
    st.base.length ≤ (ovStep st e).base.length := by
  obtain ⟨id1, v⟩ := e
  simp only at hne
  cases v with
  | obj fields =>
    unfold ovStep
    cases hl2 : lookupIdx st.index (.str id1) with
    | some p2 =>
      simp only
      exact ⟨hnone, le_of_eq (modIdx_length _ _ _).symm⟩
    | none =>
      simp only
      have habs := (lookupIdx_none_iff _ _).mp hl2
      refine ⟨?_, by simp⟩
      rw [setIdx_of_absent _ _ _ habs]
      rw [lookupIdx_none_iff]
      intro e2 he2
      rcases List.mem_append.mp he2 with h2 | h2
      · exact (lookupIdx_none_iff _ _).mp hnone e2 h2
      · simp at h2
        rw [h2]
        exact jeq_str_of_ne _ _ hne
  | null => exact ⟨hnone, le_refl _⟩
  | bool b => exact ⟨hnone, le_refl _⟩
  | num n => exact ⟨hnone, le_refl _⟩
  | str s => exact ⟨hnone, le_refl _⟩
  | arr xs => exact ⟨hnone, le_refl _⟩

theorem foldl_ovStep_none (l : List (String × JVal)) (st : MState) (mid : String)
    (hinv : StInv st) (hk : ∀ e ∈ l, e.1 ≠ mid)
    (hnone : lookupIdx st.index (.str mid) = none) :
    StInv (l.foldl ovStep st) ∧
    lookupIdx (l.foldl ovStep st).index (.str mid) = none ∧
    st.base.length ≤ (l.foldl ovStep st).base.length := by
  induction l generalizing st with
  | nil => exact ⟨hinv, hnone, le_refl _⟩
  | cons e rest ih =>
    rw [List.foldl_cons]
    have hne : e.1 ≠ mid := hk e (List.mem_cons_self _ _)
    have hkr : ∀ x ∈ rest, x.1 ≠ mid := fun x hx => hk x (List.mem_cons_of_mem _ hx)
    have h1 := ovStep_none st e mid hnone hne
    have hinv2 := ovStep_inv st e hinv
    have hrec := ih (ovStep st e) hinv2 hkr h1.1
    exact ⟨hrec.1, hrec.2.1, le_trans h1.2 hrec.2.2⟩

theorem foldl_ovStep_stub (l : List (String × JVal)) (st : MState) (mid : String)
    (ofields : Obj) (hnd : (l.map Prod.fst).Nodup) (hinv : StInv st)
    (hmem : (mid, JVal.obj ofields) ∈ l)
    (hnone : lookupIdx st.index (.str mid) = none) :
    ∃ pos, st.base.length ≤ pos ∧
      (l.foldl ovStep st).base[pos]? = some (applyObjFields [("id", .str mid)] ofields) := by
  obtain ⟨l1, l2, hsplit⟩ := List.append_of_mem hmem
  subst hsplit
  rw [List.map_append, List.map_cons, List.nodup_append] at hnd
  obtain ⟨hnd1, hnd2, hdisj⟩ := hnd
  have hmid_l1 : ∀ e ∈ l1, e.1 ≠ mid := by
    intro e he hc
    exact hdisj (List.mem_map.mpr ⟨e, he, hc⟩) (by simp)
  have hmid_l2 : ∀ e ∈ l2, e.1 ≠ mid := by
    intro e he hc
    have := (List.nodup_cons.mp hnd2).1
    exact this (List.mem_map.mpr ⟨e, he, hc⟩)
  rw [List.foldl_append, List.foldl_cons]
  obtain ⟨hinv1, hnone1, hlen1⟩ := foldl_ovStep_none l1 st mid hinv hmid_l1 hnone
  set st1 := l1.foldl ovStep st with hst1
  refine ⟨st1.base.length, le_trans hlen1 (le_refl _), ?_⟩
  have hstep : ovStep st1 (mid, JVal.obj ofields) =
      { base := st1.base ++ [applyObjFields [("id", .str mid)] ofields]
        index := setIdx st1.index (.str mid) st1.base.length
        diags := st1.diags ++
          ["[WARN] Override id " ++ mid ++ " not found in base data; creating stub entry."] } := by
    unfold ovStep
    rw [hnone1]
  rw [hstep]
  have hinv2 : StInv (ovStep st1 (mid, JVal.obj ofields)) := ovStep_inv st1 _ hinv1
  rw [hstep] at hinv2
  have hlook2 : lookupIdx (setIdx st1.index (.str mid) st1.base.length) (.str mid) =
      some st1.base.length := by
    rw [setIdx_of_absent _ _ _ ((lookupIdx_none_iff _ _).mp hnone1)]
    exact lookupIdx_append_self_str _ _ _ hnone1
  have hstable := foldl_ovStep_stable l2 _ mid st1.base.length hinv2 hlook2 hmid_l2
  rw [hstable.2.2]
  exact List.getElem?_concat_length _ _

theorem ovStep_lookup_pred (st : MState) (e : String × JVal) (x : String)
    (hne : x ≠ e.1) :
    lookupIdx (ovStep st e).index (.str x) = lookupIdx st.index (.str x) := by
  obtain ⟨id1, v⟩ := e
  simp only at hne
  cases v with
  | obj fields =>
    unfold ovStep
    cases hl2 : lookupIdx st.index (.str id1) with
    | some p2 => simp only
    | none =>
      simp only
      rw [setIdx_of_absent _ _ _ ((lookupIdx_none_iff _ _).mp hl2)]
      cases hx : lookupIdx st.index (.str x) with
      | some p => exact lookupIdx_append_left _ _ _ _ hx
      | none =>
        rw [lookupIdx_append_of_absent _ _ _ hx]
        unfold lookupIdx
        simp [List.find?, jeq_str_of_ne _ _ (fun hc : id1 = x => hne hc.symm)]
  | null => rfl
  | bool b => rfl
  | num n => rfl
  | str s => rfl
  | arr xs => rfl

theorem foldl_ovStep_len (l : List (String × JVal)) (st : MState)
    (hnd : (l.map Prod.fst).Nodup) (hinv : StInv st) :
    (l.foldl ovStep st).base.length =
      st.base.length +
      (l.filter (fun e => isObjJ e.2 && (lookupIdx st.index (.str e.1)).isNone)).length := by
  induction l generalizing st with
  | nil => simp
  | cons e rest ih =>
    rw [List.map_cons] at hnd
    have hnd1 := (List.nodup_cons.mp hnd).1
    have hnd2 := (List.nodup_cons.mp hnd).2
    have hrestne : ∀ x ∈ rest, x.1 ≠ e.1 := by
      intro x hx hc
      exact hnd1 (List.mem_map.mpr ⟨x, hx, hc⟩)
    have hpred : ∀ x ∈ rest,
        (isObjJ x.2 && (lookupIdx (ovStep st e).index (.str x.1)).isNone) =
        (isObjJ x.2 && (lookupIdx st.index (.str x.1)).isNone) := by
      intro x hx
      rw [ovStep_lookup_pred st e x.1 (hrestne x hx)]
    rw [List.foldl_cons]
    have hrec := ih (ovStep st e) hnd2 (ovStep_inv st e hinv)
    rw [List.filter_congr hpred] at hrec
    obtain ⟨id1, v⟩ := e
    cases v with
    | obj fields =>
      cases hl2 : lookupIdx st.index (.str id1) with
      | some p2 =>
        have hstep : ovStep st (id1, JVal.obj fields) =
            { base := modIdx st.base p2 (fun o => applyObjFields o fields)
              index := st.index
              diags := st.diags ++ ["[INFO] Applying override to existing MEP: " ++ id1] } := by
          unfold ovStep; rw [hl2]
        rw [hstep] at hrec
        simp only [hstep, hrec, modIdx_length]
        rw [List.filter_cons]
        simp [isObjJ, hl2]
      | none =>
        have hstep : ovStep st (id1, JVal.obj fields) =
            { base := st.base ++ [applyObjFields [("id", .str id1)] fields]
              index := setIdx st.index (.str id1) st.base.length
              diags := st.diags ++
                ["[WARN] Override id " ++ id1 ++ " not found in base data; creating stub entry."] } := by
          unfold ovStep; rw [hl2]
        rw [hstep] at hrec
        simp only [List.length_append, List.length_cons, List.length_nil] at hrec
        rw [hstep, hrec, List.filter_cons]
        simp [isObjJ, hl2]
        omega
    | null =>
      rw [hrec, List.filter_cons]
      simp [isObjJ]
      rfl
    | bool b =>
      rw [hrec, List.filter_cons]
      simp [isObjJ]
      rfl
    | num n =>
      rw [hrec, List.filter_cons]
      simp [isObjJ]
      rfl
    | str s =>
      rw [hrec, List.filter_cons]
      simp [isObjJ]
      rfl
    | arr xs =>
      rw [hrec, List.filter_cons]
      simp [isObjJ]
      rfl

theorem ovStep_decomp (st : MState) (e : String × JVal) :
    ovStep st e =
      { base := (ovStep ⟨st.base, st.index, []⟩ e).base
        index := (ovStep ⟨st.base, st.index, []⟩ e).index
        diags := st.diags ++ (ovStep ⟨st.base, st.index, []⟩ e).diags } := by
  obtain ⟨id1, v⟩ := e
  cases v with
  | obj fields =>
    unfold ovStep
    cases hl2 : lookupIdx st.index (.str id1) with
    | some p2 => simp
    | none => simp
  | null => simp [ovStep]
  | bool b => simp [ovStep]
  | num n => simp [ovStep]
  | str s => simp [ovStep]
  | arr xs => simp [ovStep]

theorem foldl_ovStep_decomp (l : List (String × JVal)) (st : MState) :
    l.foldl ovStep st =
      { base := (l.foldl ovStep ⟨st.base, st.index, []⟩).base
        index := (l.foldl ovStep ⟨st.base, st.index, []⟩).index
        diags := st.diags ++ (l.foldl ovStep ⟨st.base, st.index, []⟩).diags } := by
  induction l generalizing st with
  | nil => simp
  | cons e rest ih =>
    rw [List.foldl_cons, List.foldl_cons, ih (ovStep st e),
      ih (ovStep ⟨st.base, st.index, []⟩ e)]
    have hd := ovStep_decomp st e
    have hb : (ovStep st e).base = (ovStep ⟨st.base, st.index, []⟩ e).base := by rw [hd]
    have hx : (ovStep st e).index = (ovStep ⟨st.base, st.index, []⟩ e).index := by rw [hd]
    have hdg : (ovStep st e).diags =
        st.diags ++ (ovStep ⟨st.base, st.index, []⟩ e).diags := by rw [hd]
    rw [hb, hx, hdg]
    simp

theorem toObjs_length (items : List JVal) (objs : List Obj)
    (h : toObjs items = .ok objs) : objs.length = items.length := by
  induction items generalizing objs with
  | nil => simp [toObjs] at h; simp [← h]
  | cons x rest ih =>
    cases x with
    | obj fs =>
      unfold toObjs at h
      cases hr : toObjs rest with
      | error e => rw [hr] at h; simp [Except.map] at h
      | ok l =>
        rw [hr] at h
        simp [Except.map] at h
        rw [← h]
        simp [ih l hr]
    | null => simp [toObjs] at h
    | bool b => simp [toObjs] at h
    | num n => simp [toObjs] at h
    | str s => simp [toObjs] at h
    | arr xs => simp [toObjs] at h

-- ===== Lemmas on the German-MP merge steps =====

theorem mergeParty_ok (mp r mp1 : Obj) (h : mergeParty mp r = .ok mp1) :
    (truthy (getD mp "party") = true → mp1 = mp) ∧
    (∀ k, k ≠ "party" → getD mp1 k = getD mp k) := by
  unfold mergeParty at h
  by_cases hpl : truthy (getD r "party") = true
  · rw [if_pos hpl] at h
    cases hgi : getItem mp "party" with
    | error e => rw [hgi] at h; simp at h
    | ok pCur =>
      rw [hgi] at h
      simp only [] at h
      have hcur : getD mp "party" = pCur := getItem_ok_getD mp "party" pCur hgi
      by_cases hct : truthy pCur = true
      · rw [hct] at h
        simp at h
        subst h
        exact ⟨fun _ => rfl, fun k _ => rfl⟩
      · have hcf : truthy pCur = false := by simpa using hct
        rw [hcf] at h
        simp at h
        subst h
        constructor
        · intro hp
          rw [hcur] at hp
          rw [hp] at hcf
          simp at hcf
        · intro k hk
          exact getD_setF_other mp "party" k _ (fun hc => hk hc.symm)
  · rw [if_neg hpl] at h
    simp at h
    subst h
    exact ⟨fun _ => rfl, fun k _ => rfl⟩

theorem mergeEmail_ok (mp r mp1 : Obj) (h : mergeEmail mp r = .ok mp1) :
    (truthy (getD mp "email") = true → mp1 = mp) ∧
    (∀ k, k ≠ "email" → getD mp1 k = getD mp k) := by
  unfold mergeEmail at h
  by_cases hem : truthy (getD r "email") = true
  · rw [if_pos hem] at h
    cases hgi : getItem mp "email" with
    | error e => rw [hgi] at h; simp at h
    | ok eCur =>
      rw [hgi] at h
      simp only [] at h
      have hcur : getD mp "email" = eCur := getItem_ok_getD mp "email" eCur hgi
      by_cases hct : truthy eCur = true
      · rw [hct] at h
        simp at h
        subst h
        exact ⟨fun _ => rfl, fun k _ => rfl⟩
      · have hcf : truthy eCur = false := by simpa using hct
        rw [hcf] at h
        simp only [Bool.not_false, if_pos rfl] at h
        cases hrv : getD r "email" with
        | str s =>
          rw [hrv] at h
          simp at h
          subst h
          constructor
          · intro hp
            rw [hcur] at hp
            rw [hp] at hcf
            simp at hcf
          · intro k hk
            exact getD_setF_other mp "email" k _ (fun hc => hk hc.symm)
        | null => rw [hrv] at h; simp at h
        | bool b => rw [hrv] at h; simp at h
        | num n => rw [hrv] at h; simp at h
        | arr xs => rw [hrv] at h; simp at h
        | obj fs => rw [hrv] at h; simp at h
  · rw [if_neg hem] at h
    simp at h
    subst h
    exact ⟨fun _ => rfl, fun k _ => rfl⟩

theorem mergeUses_ok (mp r mp3 : Obj) (h : mergeUses mp r = .ok mp3) :
    (usesTrigger (getD r "usesX") = false → mp3 = mp) ∧
    (truthy (getD mp "xHandle") = true → getD mp3 "xHandle" = getD mp "xHandle") ∧
    (usesTrigger (getD r "usesX") = true → getD mp3 "usesX" = .bool true) ∧
    (getD mp "usesX" = .bool true → getD mp3 "usesX" = .bool true) ∧
    (∀ k, k ≠ "usesX" → k ≠ "xHandle" → getD mp3 k = getD mp k) := by
  unfold mergeUses at h
  by_cases htr : usesTrigger (getD r "usesX") = true
  · rw [if_pos htr] at h
    have hxh : getD (setF mp "usesX" (.bool true)) "xHandle" = getD mp "xHandle" :=
      getD_setF_other mp "usesX" "xHandle" _ (by decide)
    cases hgi : getItem (setF mp "usesX" (.bool true)) "xHandle" with
    | error e => rw [hgi] at h; simp at h
    | ok xCur =>
      rw [hgi] at h
      simp only [] at h
      have hcur : getD (setF mp "usesX" (.bool true)) "xHandle" = xCur :=
        getItem_ok_getD _ "xHandle" xCur hgi
      by_cases hcond : (!truthy xCur && truthy (getD r "xHandle")) = true
      · rw [hcond] at h
        simp only [if_pos rfl] at h
        cases hgr : getItem r "xHandle" with
        | error e => rw [hgr] at h; simp at h
        | ok xh =>
          rw [hgr] at h
          simp only [] at h
          simp at h
          subst h
          have hxtf : truthy xCur = false := by
            rcases Bool.and_eq_true_iff.mp hcond with ⟨h1, _⟩
            simpa using h1
          refine ⟨fun hc => by rw [hc] at htr; simp at htr, ?_, ?_, ?_, ?_⟩
          · intro hp
            rw [← hxh, hcur] at hp
            rw [hp] at hxtf
            simp at hxtf
          · intro _
            rw [getD_setF_other _ "xHandle" "usesX" _ (by decide), getD_setF_same]
          · intro _
            rw [getD_setF_other _ "xHandle" "usesX" _ (by decide), getD_setF_same]
          · intro k hk1 hk2
            rw [getD_setF_other _ "xHandle" k _ (fun hc => hk2 hc.symm),
              getD_setF_other mp "usesX" k _ (fun hc => hk1 hc.symm)]
      · have hcf : (!truthy xCur && truthy (getD r "xHandle")) = false := by simpa using hcond
        rw [hcf] at h
        simp at h
        subst h
        refine ⟨fun hc => by rw [hc] at htr; simp at htr, ?_, ?_, ?_, ?_⟩
        · intro _
          exact hxh
        · intro _
          exact getD_setF_same mp "usesX" _
        · intro _
          exact getD_setF_same mp "usesX" _
        · intro k hk1 _
          exact getD_setF_other mp "usesX" k _ (fun hc => hk1 hc.symm)
  · have htf : usesTrigger (getD r "usesX") = false := by simpa using htr
    rw [htf] at h
    simp at h
    subst h
    exact ⟨fun _ => rfl, fun _ => rfl, fun hc => by rw [hc] at htf; simp at htf,
      fun hp => hp, fun k _ _ => rfl⟩

-- ===== Lemmas on the Wikidata merge steps =====

theorem bindParty_ok (mp b mp1 : Obj) (h : bindParty mp b = .ok mp1) :
    (truthy (getD mp "party") = true → mp1 = mp) ∧
    (∀ k, k ≠ "party" → getD mp1 k = getD mp k) := by
  unfold bindParty at h
  cases hgi : getItem mp "party" with
  | error e => rw [hgi] at h; simp at h
  | ok pCur =>
    rw [hgi] at h
    simp only [] at h
    have hcur : getD mp "party" = pCur := getItem_ok_getD mp "party" pCur hgi
    by_cases hcond : (!truthy pCur && hasKey b "partyName") = true
    · rw [hcond] at h
      simp only [if_pos rfl] at h
      cases hbv : bindingValue b "partyName" with
      | error e => rw [hbv] at h; simp at h
      | ok v =>
        rw [hbv] at h
        simp at h
        subst h
        have hpf : truthy pCur = false := by
          rcases Bool.and_eq_true_iff.mp hcond with ⟨h1, _⟩
          simpa using h1
        constructor
        · intro hp
          rw [hcur] at hp
          rw [hp] at hpf
          simp at hpf
        · intro k hk
          exact getD_setF_other mp "party" k _ (fun hc => hk hc.symm)
    · have hcf : (!truthy pCur && hasKey b "partyName") = false := by simpa using hcond
      rw [hcf] at h
      simp at h
      subst h
      exact ⟨fun _ => rfl, fun k _ => rfl⟩

theorem bindEmail_ok (mp b mp1 : Obj) (h : bindEmail mp b = .ok mp1) :
    (truthy (getD mp "email") = true → mp1 = mp) ∧
    (∀ k, k ≠ "email" → getD mp1 k = getD mp k) := by
  unfold bindEmail at h
  cases hgi : getItem mp "email" with
  | error e => rw [hgi] at h; simp at h
  | ok eCur =>
    rw [hgi] at h
    simp only [] at h
    have hcur : getD mp "email" = eCur := getItem_ok_getD mp "email" eCur hgi
    by_cases hcond : (!truthy eCur && hasKey b "email") = true
    · rw [hcond] at h
      simp only [if_pos rfl] at h
      cases hbv : bindingValue b "email" with
      | error e => rw [hbv] at h; simp at h
      | ok v =>
        rw [hbv] at h
        simp at h
        subst h
        have hpf : truthy eCur = false := by
          rcases Bool.and_eq_true_iff.mp hcond with ⟨h1, _⟩
          simpa using h1
        constructor
        · intro hp
          rw [hcur] at hp
          rw [hp] at hpf
          simp at hpf
        · intro k hk
          exact getD_setF_other mp "email" k _ (fun hc => hk hc.symm)
    · have hcf : (!truthy eCur && hasKey b "email") = false := by simpa using hcond
      rw [hcf] at h
      simp at h
      subst h
      exact ⟨fun _ => rfl, fun k _ => rfl⟩

theorem bindUses_ok (mp b mp2 : Obj) (h : bindUses mp b = .ok mp2) :
    (truthy (getD mp "usesX") = true → mp2 = mp) ∧
    (∀ k, k ≠ "usesX" → k ≠ "xHandle" → getD mp2 k = getD mp k) := by
  unfold bindUses at h
  cases hgi : getItem mp "usesX" with
  | error e => rw [hgi] at h; simp at h
  | ok uCur =>
    rw [hgi] at h
    simp only [] at h
    have hcur : getD mp "usesX" = uCur := getItem_ok_getD mp "usesX" uCur hgi
    by_cases hcond : (!truthy uCur && hasKey b "x") = true
    · rw [hcond] at h
      simp only [if_pos rfl] at h
      cases hbv : bindingValue b "x" with
      | error e => rw [hbv] at h; simp at h
      | ok v =>
        rw [hbv] at h
        simp at h
        subst h
        have hpf : truthy uCur = false := by
          rcases Bool.and_eq_true_iff.mp hcond with ⟨h1, _⟩
          simpa using h1
        constructor
        · intro hp
          rw [hcur] at hp
          rw [hp] at hpf
          simp at hpf
        · intro k hk1 hk2
          rw [getD_setF_other _ "xHandle" k _ (fun hc => hk2 hc.symm),
            getD_setF_other mp "usesX" k _ (fun hc => hk1 hc.symm)]
    · have hcf : (!truthy uCur && hasKey b "x") = false := by simpa using hcond
      rw [hcf] at h
      simp at h
      subst h
      exact ⟨fun _ => rfl, fun _ _ _ => rfl⟩

-- ===== Claim theorems =====

/-- C5: fill-if-empty monotonicity.  For the German deduplication merge
(`deduplicate_mps_de.py` lines 46-63): whenever the merge of a raw row into
a canonical record succeeds, every already-populated field (truthy party,
email, xHandle; usesX already true) is unchanged, and fields other than the
four merge targets are never touched.  For the Wikidata merge
(`get_de_mps_wikidata.py` lines 79-89) the same holds for every record
satisfying the pipeline's handle-implies-usage invariant (which all records
built by that script satisfy). -/
theorem C5_fill_if_empty_monotonic :
    (∀ mp r mp2 : Obj, mergeInto mp r = .ok mp2 →
      (truthy (getD mp "party") = true → getD mp2 "party" = getD mp "party") ∧
      (truthy (getD mp "email") = true → getD mp2 "email" = getD mp "email") ∧
      (truthy (getD mp "xHandle") = true → getD mp2 "xHandle" = getD mp "xHandle") ∧
      (getD mp "usesX" = .bool true → getD mp2 "usesX" = .bool true) ∧
      (∀ k, k ≠ "party" → k ≠ "email" → k ≠ "usesX" → k ≠ "xHandle" →
        getD mp2 k = getD mp k)) ∧
    (∀ mp b mp2 : Obj, mergeBinding mp b = .ok mp2 →
      (truthy (getD mp "xHandle") = true → truthy (getD mp "usesX") = true) →
      (truthy (getD mp "party") = true → getD mp2 "party" = getD mp "party") ∧
      (truthy (getD mp "email") = true → getD mp2 "email" = getD mp "email") ∧
      (truthy (getD mp "xHandle") = true → getD mp2 "xHandle" = getD mp "xHandle") ∧
      (truthy (getD mp "usesX") = true → getD mp2 "usesX" = getD mp "usesX") ∧
      (∀ k, k ≠ "party" → k ≠ "email" → k ≠ "usesX" → k ≠ "xHandle" →
        getD mp2 k = getD mp k)) := by
  constructor
  · intro mp r mp2 h
    unfold mergeInto at h
    cases h1 : mergeParty mp r with
    | error e => rw [h1] at h; simp at h
    | ok mp1 =>
      rw [h1] at h
      simp only [] at h
      cases h2 : mergeEmail mp1 r with
      | error e => rw [h2] at h; simp at h
      | ok mp1b =>
        rw [h2] at h
        simp only [] at h
        obtain ⟨p1, p2⟩ := mergeParty_ok mp r mp1 h1
        obtain ⟨e1, e2⟩ := mergeEmail_ok mp1 r mp1b h2
        obtain ⟨u1, u2, u3, u4, u5⟩ := mergeUses_ok mp1b r mp2 h
        refine ⟨?_, ?_, ?_, ?_, ?_⟩
        · intro hp
          have hmp1 : mp1 = mp := p1 hp
          rw [u5 "party" (by decide) (by decide), e2 "party" (by decide), hmp1]
        · intro hp
          have hmp1e : getD mp1 "email" = getD mp "email" := p2 "email" (by decide)
          have hp1 : truthy (getD mp1 "email") = true := by rw [hmp1e]; exact hp
          have hmp1b : mp1b = mp1 := e1 hp1
          rw [u5 "email" (by decide) (by decide), hmp1b, hmp1e]
        · intro hp
          have hxa : getD mp1 "xHandle" = getD mp "xHandle" := p2 "xHandle" (by decide)
          have hxb : getD mp1b "xHandle" = getD mp1 "xHandle" := e2 "xHandle" (by decide)
          have hpx : truthy (getD mp1b "xHandle") = true := by rw [hxb, hxa]; exact hp
          rw [u2 hpx, hxb, hxa]
        · intro hp
          have hval : getD mp1b "usesX" = .bool true := by
            rw [e2 "usesX" (by decide), p2 "usesX" (by decide)]
            exact hp
          exact u4 hval
        · intro k k1 k2 k3 k4
          rw [u5 k k3 k4, e2 k k2, p2 k k1]
  · intro mp b mp2 h hinv
    unfold mergeBinding at h
    cases h1 : bindParty mp b with
    | error e => rw [h1] at h; simp at h
    | ok mp1 =>
      rw [h1] at h
      simp only [] at h
      cases h2 : bindEmail mp1 b with
      | error e => rw [h2] at h; simp at h
      | ok mp1b =>
        rw [h2] at h
        simp only [] at h
        obtain ⟨p1, p2⟩ := bindParty_ok mp b mp1 h1
        obtain ⟨e1, e2⟩ := bindEmail_ok mp1 b mp1b h2
        obtain ⟨u1, u2⟩ := bindUses_ok mp1b b mp2 h
        have husesa : getD mp1 "usesX" = getD mp "usesX" := p2 "usesX" (by decide)
        have husesb : getD mp1b "usesX" = getD mp1 "usesX" := e2 "usesX" (by decide)
        have hxa : getD mp1 "xHandle" = getD mp "xHandle" := p2 "xHandle" (by decide)
        have hxb : getD mp1b "xHandle" = getD mp1 "xHandle" := e2 "xHandle" (by decide)
        refine ⟨?_, ?_, ?_, ?_, ?_⟩
        · intro hp
          have hmp1 : mp1 = mp := p1 hp
          rw [u2 "party" (by decide) (by decide), e2 "party" (by decide), hmp1]
        · intro hp
          have hmp1e : getD mp1 "email" = getD mp "email" := p2 "email" (by decide)
          have hp1 : truthy (getD mp1 "email") = true := by rw [hmp1e]; exact hp
          have hmp1b : mp1b = mp1 := e1 hp1
          rw [u2 "email" (by decide) (by decide), hmp1b, hmp1e]
        · intro hp
          have hu : truthy (getD mp1b "usesX") = true := by
            rw [husesb, husesa]
            exact hinv hp
          have hmp2 : mp2 = mp1b := u1 hu
          rw [hmp2, hxb, hxa]
        · intro hp
          have hu : truthy (getD mp1b "usesX") = true := by
            rw [husesb, husesa]
            exact hp
          have hmp2 : mp2 = mp1b := u1 hu
          rw [hmp2, husesb, husesa]
        · intro k k1 k2 k3 k4
          rw [u2 k k3 k4, e2 k k2, p2 k k1]

/-- A fully populated canonical record, as the dedup script builds them. -/
def mpPopEx : Obj :=
  [("id", .str "mp_de_Q9"), ("qid", .str "Q9"), ("name", .str "Ada"),
   ("party", .str "spd"), ("email", .str "ada@bt.example"),
   ("usesX", .bool true), ("xHandle", .str "@ada")]

/-- A raw row all of whose mergeable values are empty. -/
def rEmptyEx : Obj :=
  [("qid", .str "Q9"), ("party", .str ""), ("email", .null),
   ("usesX", .null), ("xHandle", .null)]

/-- C5 witness: merging the empty-valued row (and the empty Wikidata
binding) into the populated record leaves every populated field unchanged. -/
theorem C5_fill_if_empty_monotonic_witness :
    ((truthy (getD mpPopEx "party") = true → getD mpPopEx "party" = getD mpPopEx "party") ∧
     (truthy (getD mpPopEx "email") = true → getD mpPopEx "email" = getD mpPopEx "email") ∧
     (truthy (getD mpPopEx "xHandle") = true → getD mpPopEx "xHandle" = getD mpPopEx "xHandle") ∧
     (getD mpPopEx "usesX" = .bool true → getD mpPopEx "usesX" = .bool true) ∧
     (∀ k, k ≠ "party" → k ≠ "email" → k ≠ "usesX" → k ≠ "xHandle" →
       getD mpPopEx k = getD mpPopEx k)) ∧
    ((truthy (getD mpPopEx "party") = true → getD mpPopEx "party" = getD mpPopEx "party") ∧
     (truthy (getD mpPopEx "email") = true → getD mpPopEx "email" = getD mpPopEx "email") ∧
     (truthy (getD mpPopEx "xHandle") = true → getD mpPopEx "xHandle" = getD mpPopEx "xHandle") ∧
     (truthy (getD mpPopEx "usesX") = true → getD mpPopEx "usesX" = getD mpPopEx "usesX") ∧
     (∀ k, k ≠ "party" → k ≠ "email" → k ≠ "usesX" → k ≠ "xHandle" →
       getD mpPopEx k = getD mpPopEx k)) :=
  ⟨C5_fill_if_empty_monotonic.1 mpPopEx rEmptyEx mpPopEx rfl,
   C5_fill_if_empty_monotonic.2 mpPopEx [] mpPopEx rfl (fun _ => rfl)⟩

/-- C10: in the German deduplication pass, a row's usage flag triggers only
for the raw values `"1"`, `1`, `True` (Python tuple membership under `==`);
strings such as `"true"` or `"yes"` do not trigger, and for any
non-triggering value a successful merge leaves `usesX` and `xHandle` of the
record exactly as they were (the row's `xHandle` is ignored); a triggering
value forces `usesX = True`. -/
theorem C10_usesx_trigger :
    usesTrigger (JVal.str "true") = false ∧
    usesTrigger (JVal.str "yes") = false ∧
    usesTrigger (JVal.str "1") = true ∧
    usesTrigger (JVal.num 1) = true ∧
    usesTrigger (JVal.bool true) = true ∧
    usesTrigger (JVal.bool false) = false ∧
    (∀ mp r mp2 : Obj, mergeInto mp r = .ok mp2 →
      (usesTrigger (getD r "usesX") = false →
        getD mp2 "usesX" = getD mp "usesX" ∧ getD mp2 "xHandle" = getD mp "xHandle") ∧
      (usesTrigger (getD r "usesX") = true → getD mp2 "usesX" = .bool true)) := by
  refine ⟨rfl, rfl, rfl, rfl, rfl, rfl, ?_⟩
  intro mp r mp2 h
  unfold mergeInto at h
  cases h1 : mergeParty mp r with
  | error e => rw [h1] at h; simp at h
  | ok mp1 =>
    rw [h1] at h
    simp only [] at h
    cases h2 : mergeEmail mp1 r with
    | error e => rw [h2] at h; simp at h
    | ok mp1b =>
      rw [h2] at h
      simp only [] at h
      obtain ⟨p1, p2⟩ := mergeParty_ok mp r mp1 h1
      obtain ⟨e1, e2⟩ := mergeEmail_ok mp1 r mp1b h2
      obtain ⟨u1, u2, u3, u4, u5⟩ := mergeUses_ok mp1b r mp2 h
      constructor
      · intro hf
        have hmp2 : mp2 = mp1b := u1 hf
        constructor
        · rw [hmp2, e2 "usesX" (by decide), p2 "usesX" (by decide)]
        · rw [hmp2, e2 "xHandle" (by decide), p2 "xHandle" (by decide)]
      · intro ht
        exact u3 ht

/-- An un-populated record as built by `baseMp`, paired with a row whose
usage flag is the non-triggering string `"yes"`. -/
def rYesEx : Obj :=
  [("qid", .str "Q9"), ("usesX", .str "yes"), ("xHandle", .str "@zzz")]

/-- C10 witness: on the record freshly created for `rYesEx`, the `"yes"`
flag does not trigger and the merge leaves `usesX`/`xHandle` unchanged. -/
theorem C10_usesx_trigger_witness :
    (usesTrigger (getD rYesEx "usesX") = false →
      getD (baseMp (.str "Q9") rYesEx) "usesX" = getD (baseMp (.str "Q9") rYesEx) "usesX" ∧
      getD (baseMp (.str "Q9") rYesEx) "xHandle" = getD (baseMp (.str "Q9") rYesEx) "xHandle") ∧
    (usesTrigger (getD rYesEx "usesX") = true →
      getD (baseMp (.str "Q9") rYesEx) "usesX" = .bool true) :=
  C10_usesx_trigger.2.2.2.2.2.2 (baseMp (.str "Q9") rYesEx) rYesEx
    (baseMp (.str "Q9") rYesEx) rfl

/-- C1: the override script never re-runs `normalize_x_fields` after the
override loop (its normalize pass sits before the loop, contradicting the
adjacent `# After applying overrides:` comment), so an override such as
`{"usesX": false, "xHandle": "@foo"}` for an unknown id leaves a final
record that violates the usesX/xHandle invariant. -/
theorem C1_override_pass_invariant_bug :
    mainRun (.arr [])
        (.obj [("X1", .obj [("usesX", .bool false), ("xHandle", .str "@foo")])]) =
      .ok ([[("id", .str "X1"), ("usesX", .bool false), ("xHandle", .str "@foo")]],
        ["[WARN] Override id X1 not found in base data; creating stub entry."]) ∧
    xInvariantB [("id", .str "X1"), ("usesX", .bool false), ("xHandle", .str "@foo")] = false :=
  ⟨rfl, rfl⟩

/-- C6 counterexample: on the intent URL of the claim, the overrides-script
extractor `_extract_handle` returns the path segment `"intent"`, not
`"@policyWonk"`; and on an intent URL without a `screen_name` parameter the
bio extractor returns `"@intent"`, not null. -/
theorem C6_intent_url_counterexample :
    extract_handle (.str "https://x.com/intent/user?screen_name=policyWonk") = some "intent" ∧
    (some "intent" ≠ (some "@policyWonk" : Option String)) ∧
    handle_from_href "https://x.com/intent/user" = some "@intent" ∧
    (some "@intent" ≠ (none : Option String)) :=
  ⟨rfl, by decide, rfl, by decide⟩

/-- C6 amended: the bio-HTML extractor's URL logic returns `"@policyWonk"`
for the claim's input and uses `screen_name` when a capture exists; it
returns null only when `screen_name=` is present but unmatchable, and falls
through to `"@intent"` when the parameter is absent; the overrides-script
extractor has no intent handling at all and yields `"intent"`. -/
theorem C6_intent_url_amended :
    handle_from_href "https://x.com/intent/user?screen_name=policyWonk" = some "@policyWonk" ∧
    handle_from_href "https://x.com/intent/user?screen_name=" = none ∧
    handle_from_href "https://x.com/intent/user" = some "@intent" ∧
    extract_handle (.str "https://x.com/intent/user?screen_name=policyWonk") = some "intent" :=
  ⟨rfl, rfl, rfl, rfl⟩

/-- C7 counterexample: neither extractor rejects the `home` action route:
`_extract_handle` returns `"home"` and the bio extractor returns `"@home"`,
both non-null. -/
theorem C7_nonprofile_path_counterexample :
    extract_handle (.str "https://twitter.com/home") = some "home" ∧
    (some "home" ≠ (none : Option String)) ∧
    handle_from_href "https://twitter.com/home" = some "@home" ∧
    (some "@home" ≠ (none : Option String)) :=
  ⟨rfl, by decide, rfl, by decide⟩

/-- C7 amended: both extractors return the first path segment for
`home`/`share` action routes instead of rejecting them; the only
special-cased route is `intent`, in the bio extractor alone, and even there
only a present-but-unmatchable `screen_name` yields null. -/
theorem C7_nonprofile_path_amended :
    extract_handle (.str "https://twitter.com/home") = some "home" ∧
    handle_from_href "https://twitter.com/home" = some "@home" ∧
    extract_handle (.str "https://twitter.com/share") = some "share" ∧
    handle_from_href "https://twitter.com/share" = some "@share" ∧
    handle_from_href "https://x.com/intent/user?screen_name=" = none :=
  ⟨rfl, rfl, rfl, rfl, rfl⟩

-- ===== Totality characterization of the csv_to_json normalizers =====

theorem country_ok_iff (v : JVal) : okB (country_to_code v) = (!truthy v || isStrJ v) := by
  cases v with
  | null => rfl
  | bool b => cases b <;> rfl
  | num n =>
    by_cases h : n = 0
    · subst h; rfl
    · have ht : truthy (.num n) = true := by simp [truthy, h]
      simp [country_to_code, ht, isStrJ, okB]
  | str s =>
    have hok : okB (country_to_code (.str s)) = true := by
      unfold country_to_code
      split
      · rfl
      · simp only []
        cases lookupTbl EU_COUNTRY_CODES (pyStrip s) with
        | none => rfl
        | some c => rfl
    rw [hok]
    simp [isStrJ]
  | arr xs => cases xs <;> rfl
  | obj fs => cases fs <;> rfl

theorem xhandle_ok_iff (v : JVal) : okB (normalize_x_handle v) = (!truthy v || isStrJ v) := by
  cases v with
  | null => rfl
  | bool b => cases b <;> rfl
  | num n =>
    by_cases h : n = 0
    · subst h; rfl
    · have ht : truthy (.num n) = true := by simp [truthy, h]
      simp [normalize_x_handle, ht, isStrJ, okB]
  | str s =>
    have hok : okB (normalize_x_handle (.str s)) = true := by
      unfold normalize_x_handle
      split
      · rfl
      · simp only []
        split
        · rfl
        · split
          · rfl
          · rfl
    rw [hok]
    simp [isStrJ]
  | arr xs => cases xs <;> rfl
  | obj fs => cases fs <;> rfl

theorem group_ok_iff (v : JVal) : okB (map_eu_group_to_short v) = (!truthy v || isStrJ v) := by
  cases v with
  | null => rfl
  | bool b => cases b <;> rfl
  | num n =>
    by_cases h : n = 0
    · subst h; rfl
    · have ht : truthy (.num n) = true := by simp [truthy, h]
      simp [map_eu_group_to_short, ht, isStrJ, okB]
  | str s =>
    have hok : okB (map_eu_group_to_short (.str s)) = true := by
      unfold map_eu_group_to_short
      split
      · rfl
      · rfl
    rw [hok]
    simp [isStrJ]
  | arr xs => cases xs <;> rfl
  | obj fs => cases fs <;> rfl

theorem name_ok_iff (v : JVal) : okB (normalize_name v) = (!truthy v || isStrJ v) := by
  cases v with
  | null => rfl
  | bool b => cases b <;> rfl
  | num n =>
    by_cases h : n = 0
    · subst h; rfl
    · have ht : truthy (.num n) = true := by simp [truthy, h]
      simp [normalize_name, ht, isStrJ, okB]
  | str s =>
    have hok : okB (normalize_name (.str s)) = true := by
      unfold normalize_name
      split
      · rfl
      · simp only []
        split
        · rfl
        · rfl
    rw [hok]
    simp [isStrJ]
  | arr xs => cases xs <;> rfl
  | obj fs => cases fs <;> rfl

/-- C8 counterexample: the string-annotated normalizers of `csv_to_json.py`
raise `AttributeError` on truthy non-string input (they call `.strip()`),
so they are not total over malformed values as the claim states. -/
theorem C8_normalizer_totality_counterexample :
    country_to_code (.num 5) = .error "AttributeError: strip on non-string" ∧
    normalize_x_handle (.bool true) = .error "AttributeError: strip on non-string" ∧
    normalize_name (.num 7) = .error "AttributeError: strip on non-string" :=
  ⟨rfl, rfl, rfl⟩

/-- C8 amended: the overrides-script handle extractor is total and returns
null on every non-string; the country mapper, x-handle normalizer, EU-group
mapper and name normalizer succeed exactly on falsy or string inputs and
raise on truthy non-string input. -/
theorem C8_normalizer_totality_amended :
    ∀ v : JVal,
      (isStrJ v = false → extract_handle v = none) ∧
      okB (country_to_code v) = (!truthy v || isStrJ v) ∧
      okB (normalize_x_handle v) = (!truthy v || isStrJ v) ∧
      okB (map_eu_group_to_short v) = (!truthy v || isStrJ v) ∧
      okB (normalize_name v) = (!truthy v || isStrJ v) := by
  intro v
  refine ⟨?_, country_ok_iff v, xhandle_ok_iff v, group_ok_iff v, name_ok_iff v⟩
  intro h
  cases v with
  | str s => simp [isStrJ] at h
  | null => rfl
  | bool b => rfl
  | num n => rfl
  | arr xs => rfl
  | obj fs => rfl

/-- C8 witness: at the concrete malformed value `5`, the handle extractor
degrades to null while `country_to_code` fails. -/
theorem C8_normalizer_totality_amended_witness :
    extract_handle (JVal.num 5) = none ∧
    okB (country_to_code (JVal.num 5)) = (!truthy (JVal.num 5) || isStrJ (JVal.num 5)) :=
  ⟨(C8_normalizer_totality_amended (JVal.num 5)).1 rfl,
   (C8_normalizer_totality_amended (JVal.num 5)).2.1⟩

theorem ovStep_skip (st : MState) (mid : String) (v : JVal) (hv : isObjJ v = false) :
    ovStep st (mid, v) =
      ⟨st.base, st.index,
       st.diags ++ ["[WARN] Override for " ++ mid ++ " is not an object, skipping."]⟩ := by
  cases v with
  | obj fs => simp [isObjJ] at hv
  | null => rfl
  | bool b => rfl
  | num n => rfl
  | str s => rfl
  | arr xs => rfl

theorem ovStep_found (st : MState) (mid : String) (fields : Obj) (pos : Nat)
    (hl : lookupIdx st.index (.str mid) = some pos) :
    ovStep st (mid, .obj fields) =
      ⟨modIdx st.base pos (fun o => applyObjFields o fields), st.index,
       st.diags ++ ["[INFO] Applying override to existing MEP: " ++ mid]⟩ := by
  unfold ovStep
  simp only []
  rw [hl]

theorem ovStep_notfound (st : MState) (mid : String) (fields : Obj)
    (hl : lookupIdx st.index (.str mid) = none) :
    ovStep st (mid, .obj fields) =
      ⟨st.base ++ [applyObjFields [("id", .str mid)] fields],
       setIdx st.index (.str mid) st.base.length,
       st.diags ++
         ["[WARN] Override id " ++ mid ++ " not found in base data; creating stub entry."]⟩ := by
  unfold ovStep
  simp only []
  rw [hl]

/-- C2: override supremacy.  For a well-formed run of
`apply_meps_overrides.py` (unique override ids and unique keys inside the
entry, as `json.load` guarantees), every field key explicitly present in an
override entry whose id is indexed ends up verbatim on that canonical
record in the final output, regardless of the record's prior content. -/
theorem C2_override_supremacy
    (items : List JVal) (ovFields : List (String × JVal)) (objs : List Obj)
    (ix0 : List (JVal × Nat)) (ds0 : List String) (recs : List Obj) (ds : List String)
    (mid : String) (ofields : Obj) (pos : Nat) (k : String) (v : JVal)
    (h1 : toObjs items = .ok objs)
    (h2 : buildIndexAux objs 0 [] [] = .ok (ix0, ds0))
    (h3 : lookupIdx ix0 (.str mid) = some pos)
    (h4 : mainRun (.arr items) (.obj ovFields) = .ok (recs, ds))
    (h5 : (ovFields.map Prod.fst).Nodup)
    (h6 : (mid, JVal.obj ofields) ∈ ovFields)
    (h7 : (ofields.map Prod.fst).Nodup)
    (h8 : (k, v) ∈ ofields) :
    (recs[pos]?).map (fun rec => getD rec k) = some v := by
  unfold mainRun at h4
  simp only [] at h4
  rw [h1] at h4
  simp only [] at h4
  rw [h2] at h4
  simp only [] at h4
  simp only [Except.ok.injEq, Prod.mk.injEq] at h4
  obtain ⟨hrecs, hds⟩ := h4
  set st0 : MState := ⟨objs.map normalize_x_fields, ix0, ds0⟩ with hst0
  have hinv0 : StInv st0 := by
    have hb := buildIndexAux_inv objs 0 [] [] ix0 ds0 h2 (by simp) (by simp)
    refine ⟨hb.1, fun p hp => ?_⟩
    have := hb.2 p hp
    simpa [hst0] using this
  obtain ⟨l1, l2, hsp⟩ := List.append_of_mem h6
  subst hsp
  rw [List.map_append, List.map_cons, List.nodup_append] at h5
  obtain ⟨hnd1, hnd2, hdisj⟩ := h5
  have hmid_l1 : ∀ e ∈ l1, e.1 ≠ mid := by
    intro e he hc
    exact hdisj (List.mem_map.mpr ⟨e, he, hc⟩) (by simp)
  have hmid_l2 : ∀ e ∈ l2, e.1 ≠ mid := by
    intro e he hc
    exact (List.nodup_cons.mp hnd2).1 (List.mem_map.mpr ⟨e, he, hc⟩)
  rw [List.foldl_append, List.foldl_cons] at hrecs
  set st1 : MState := List.foldl ovStep st0 l1 with hst1
  obtain ⟨hinv1, hlook1, hbase1⟩ := foldl_ovStep_stable l1 st0 mid pos hinv0 h3 hmid_l1
  rw [← hst1] at hinv1 hlook1 hbase1
  have hstep := ovStep_found st1 mid ofields pos hlook1
  rw [hstep] at hrecs
  have hinv2 := ovStep_inv st1 (mid, JVal.obj ofields) hinv1
  rw [hstep] at hinv2
  have hlook2 : lookupIdx
      (⟨modIdx st1.base pos (fun o => applyObjFields o ofields), st1.index,
        st1.diags ++ ["[INFO] Applying override to existing MEP: " ++ mid]⟩ : MState).index
      (.str mid) = some pos := hlook1
  obtain ⟨hinv3, hlook3, hbase3⟩ := foldl_ovStep_stable l2 _ mid pos hinv2 hlook2 hmid_l2
  rw [← hrecs, hbase3]
  have hplt : pos < st1.base.length := lookupIdx_lt st1 _ _ hinv1 hlook1
  have hsimp : (⟨modIdx st1.base pos (fun o => applyObjFields o ofields), st1.index,
      st1.diags ++ ["[INFO] Applying override to existing MEP: " ++ mid]⟩ : MState).base[pos]? =
      (modIdx st1.base pos (fun o => applyObjFields o ofields))[pos]? := rfl
  rw [hsimp, getElem?_modIdx_self st1.base pos _, List.getElem?_eq_getElem hplt]
  show some (getD (applyObjFields (st1.base.get ⟨pos, hplt⟩) ofields) k) = some v
  rw [getD_applyObjFields_mem ofields _ k v h7 h8]

/-- C2 witness: a concrete run where the override replaces an already
populated email verbatim. -/
theorem C2_override_supremacy_witness :
    (([[("id", JVal.str "A"), ("email", JVal.str "new@x.example"),
        ("usesX", JVal.bool false), ("xHandle", JVal.null)]] : List Obj)[0]?).map
      (fun rec => getD rec "email") = some (JVal.str "new@x.example") :=
  C2_override_supremacy
    [.obj [("id", .str "A"), ("email", .str "old@x.example")]]
    [("A", .obj [("email", .str "new@x.example")])]
    [[("id", .str "A"), ("email", .str "old@x.example")]]
    [(.str "A", 0)] []
    [[("id", JVal.str "A"), ("email", JVal.str "new@x.example"),
      ("usesX", JVal.bool false), ("xHandle", JVal.null)]]
    ["[INFO] Applying override to existing MEP: A"]
    "A" [("email", .str "new@x.example")] 0 "email" (.str "new@x.example")
    rfl rfl rfl rfl (by simp) (List.mem_cons_self _ _) (by simp) (List.mem_cons_self _ _)

/-- C3 counterexample: an override entry for the absent id `"A"` that itself
carries an `"id"` field produces a stub whose `id` is the override's value
`"B"`, not the override key `"A"` (`new_obj.update(override_data)`
overwrites the seeded id). -/
theorem C3_stub_id_counterexample :
    mainRun (.arr []) (.obj [("A", .obj [("id", .str "B")])]) =
      .ok ([[("id", .str "B")]],
        ["[WARN] Override id A not found in base data; creating stub entry."]) ∧
    getD [("id", JVal.str "B")] "id" = JVal.str "B" ∧
    JVal.str "B" ≠ JVal.str "A" := by
  refine ⟨rfl, rfl, ?_⟩
  intro h
  exact absurd (JVal.str.inj h) (by decide)

/-- C3 amended: in a well-formed run, each object-valued override entry
whose id is absent from the initial index appends exactly one stub record
(the record count grows by the number of such entries), the stub is
`{"id": key}` updated with the override's fields and sits after all base
records, and its `id` equals the override key provided the entry itself
carries no `"id"` field. -/
theorem C3_stub_creation_amended
    (items : List JVal) (ovFields : List (String × JVal)) (objs : List Obj)
    (ix0 : List (JVal × Nat)) (ds0 : List String) (recs : List Obj) (ds : List String)
    (mid : String) (ofields : Obj)
    (h1 : toObjs items = .ok objs)
    (h2 : buildIndexAux objs 0 [] [] = .ok (ix0, ds0))
    (h3 : lookupIdx ix0 (.str mid) = none)
    (h4 : mainRun (.arr items) (.obj ovFields) = .ok (recs, ds))
    (h5 : (ovFields.map Prod.fst).Nodup)
    (h6 : (mid, JVal.obj ofields) ∈ ovFields) :
    recs.length = items.length +
      (ovFields.filter (fun e => isObjJ e.2 && (lookupIdx ix0 (.str e.1)).isNone)).length ∧
    ∃ pos, items.length ≤ pos ∧
      recs[pos]? = some (applyObjFields [("id", JVal.str mid)] ofields) ∧
      ("id" ∉ ofields.map Prod.fst →
        (recs[pos]?).map (fun rec => getD rec "id") = some (JVal.str mid)) := by
  unfold mainRun at h4
  simp only [] at h4
  rw [h1] at h4
  simp only [] at h4
  rw [h2] at h4
  simp only [] at h4
  simp only [Except.ok.injEq, Prod.mk.injEq] at h4
  obtain ⟨hrecs, hds⟩ := h4
  set st0 : MState := ⟨objs.map normalize_x_fields, ix0, ds0⟩ with hst0
  have hinv0 : StInv st0 := by
    have hb := buildIndexAux_inv objs 0 [] [] ix0 ds0 h2 (by simp) (by simp)
    refine ⟨hb.1, fun p hp => ?_⟩
    have := hb.2 p hp
    simpa [hst0] using this
  have hlen0 : st0.base.length = items.length := by
    have := toObjs_length items objs h1
    simp [hst0, this]
  constructor
  · rw [← hrecs, foldl_ovStep_len ovFields st0 h5 hinv0, hlen0]
  · obtain ⟨pos, hle, hgot⟩ := foldl_ovStep_stub ovFields st0 mid ofields h5 hinv0 h6 h3
    refine ⟨pos, ?_, ?_, ?_⟩
    · rw [← hlen0]
      exact hle
    · rw [← hrecs]
      exact hgot
    · intro hid
      rw [← hrecs, hgot]
      show some (getD (applyObjFields [("id", JVal.str mid)] ofields) "id") = _
      rw [getD_applyObjFields_not_mem ofields _ "id" hid]
      rfl

/-- C3 amended witness: a concrete run where the override for absent id
`"A"` (no `"id"` field inside) creates exactly one stub with id `"A"`. -/
theorem C3_stub_creation_amended_witness :
    ([[("id", JVal.str "A"), ("name", JVal.str "Zed")]] : List Obj).length =
      ([] : List JVal).length +
      (([("A", JVal.obj [("name", JVal.str "Zed")])] : List (String × JVal)).filter
        (fun e => isObjJ e.2 && (lookupIdx ([] : List (JVal × Nat)) (.str e.1)).isNone)).length ∧
    ∃ pos, ([] : List JVal).length ≤ pos ∧
      ([[("id", JVal.str "A"), ("name", JVal.str "Zed")]] : List Obj)[pos]? =
        some (applyObjFields [("id", JVal.str "A")] [("name", JVal.str "Zed")]) ∧
      ("id" ∉ ([("name", JVal.str "Zed")] : Obj).map Prod.fst →
        (([[("id", JVal.str "A"), ("name", JVal.str "Zed")]] : List Obj)[pos]?).map
          (fun rec => getD rec "id") = some (JVal.str "A")) :=
  C3_stub_creation_amended [] [("A", .obj [("name", .str "Zed")])] [] [] []
    [[("id", JVal.str "A"), ("name", JVal.str "Zed")]]
    ["[WARN] Override id A not found in base data; creating stub entry."]
    "A" [("name", .str "Zed")]
    rfl rfl rfl rfl (by simp) (List.mem_cons_self _ _)

/-- C9: top-level shape errors are fatal with no output (a non-array base, a
non-object override mapping), while a single non-object override entry is
skipped with a warning and the rest of the pipeline still produces exactly
the records it would have produced without that entry. -/
theorem C9_error_handling :
    (∀ (baseJ ovJ : JVal), (∀ xs, baseJ ≠ JVal.arr xs) →
      mainRun baseJ ovJ = .error "meps_all.json must be a JSON array (list of objects).") ∧
    (∀ (items : List JVal) (ovJ : JVal), (∀ fs, ovJ ≠ JVal.obj fs) →
      mainRun (.arr items) ovJ =
        .error "meps_overrides.json must be a JSON object keyed by MEP id.") ∧
    (∀ (items : List JVal) (l1 l2 : List (String × JVal)) (mid : String) (v : JVal)
        (recs : List Obj) (ds : List String),
      isObjJ v = false →
      mainRun (.arr items) (.obj (l1 ++ l2)) = .ok (recs, ds) →
      ∃ ds2, mainRun (.arr items) (.obj (l1 ++ (mid, v) :: l2)) = .ok (recs, ds2) ∧
        ("[WARN] Override for " ++ mid ++ " is not an object, skipping.") ∈ ds2) := by
  refine ⟨?_, ?_, ?_⟩
  · intro baseJ ovJ hne
    cases baseJ with
    | arr xs => exact absurd rfl (hne xs)
    | null => rfl
    | bool b => rfl
    | num n => rfl
    | str s => rfl
    | obj fs => rfl
  · intro items ovJ hne
    cases ovJ with
    | obj fs => exact absurd rfl (hne fs)
    | null => rfl
    | bool b => rfl
    | num n => rfl
    | str s => rfl
    | arr xs => rfl
  · intro items l1 l2 mid v recs ds hv h
    cases hto : toObjs items with
    | error e =>
      unfold mainRun at h
      simp only [] at h
      rw [hto] at h
      simp at h
    | ok objs =>
      cases hbi : buildIndexAux objs 0 [] [] with
      | error e =>
        unfold mainRun at h
        simp only [] at h
        rw [hto] at h
        simp only [] at h
        rw [hbi] at h
        simp at h
      | ok pr =>
        obtain ⟨ix0, ds0⟩ := pr
        unfold mainRun at h
        simp only [] at h
        rw [hto] at h
        simp only [] at h
        rw [hbi] at h
        simp only [] at h
        simp only [Except.ok.injEq, Prod.mk.injEq] at h
        obtain ⟨hrecs, hds⟩ := h
        set st0 : MState := ⟨objs.map normalize_x_fields, ix0, ds0⟩ with hst0
        set st1 : MState := List.foldl ovStep st0 l1 with hst1
        have hrun : mainRun (.arr items) (.obj (l1 ++ (mid, v) :: l2)) =
            .ok ((List.foldl ovStep st0 (l1 ++ (mid, v) :: l2)).base,
                 (List.foldl ovStep st0 (l1 ++ (mid, v) :: l2)).diags) := by
          unfold mainRun
          simp only []
          rw [hto]
          simp only []
          rw [hbi]
        have hsplit : List.foldl ovStep st0 (l1 ++ (mid, v) :: l2) =
            List.foldl ovStep (ovStep st1 (mid, v)) l2 := by
          rw [List.foldl_append, List.foldl_cons, hst1]
        have hskip := ovStep_skip st1 mid v hv
        have hA := foldl_ovStep_decomp l2
          ⟨st1.base, st1.index,
           st1.diags ++ ["[WARN] Override for " ++ mid ++ " is not an object, skipping."]⟩
        have hB : List.foldl ovStep st1 l2 =
            ⟨(List.foldl ovStep ⟨st1.base, st1.index, []⟩ l2).base,
             (List.foldl ovStep ⟨st1.base, st1.index, []⟩ l2).index,
             st1.diags ++ (List.foldl ovStep ⟨st1.base, st1.index, []⟩ l2).diags⟩ :=
          foldl_ovStep_decomp l2 st1
        have hrecs2 : recs = (List.foldl ovStep ⟨st1.base, st1.index, []⟩ l2).base := by
          rw [← hrecs, List.foldl_append, ← hst1, hB]
        refine ⟨(st1.diags ++ ["[WARN] Override for " ++ mid ++ " is not an object, skipping."]) ++
            (List.foldl ovStep ⟨st1.base, st1.index, []⟩ l2).diags, ?_, ?_⟩
        · rw [hrun, hsplit, hskip, hA]
          rw [hrecs2]
        · simp

/-- C9 witness: a non-array base is fatal, a non-object override mapping is
fatal, and one malformed (string-valued) override entry is skipped with a
warning while the run still succeeds with the same records. -/
theorem C9_error_handling_witness :
    mainRun (.str "oops") (.obj []) =
      .error "meps_all.json must be a JSON array (list of objects)." ∧
    mainRun (.arr []) (.num 3) =
      .error "meps_overrides.json must be a JSON object keyed by MEP id." ∧
    ∃ ds2, mainRun (.arr []) (.obj [("Bad", .str "zzz")]) = .ok ([], ds2) ∧
      ("[WARN] Override for " ++ "Bad" ++ " is not an object, skipping.") ∈ ds2 :=
  ⟨C9_error_handling.1 (.str "oops") (.obj []) (fun xs h => by cases h),
   C9_error_handling.2.1 [] (.num 3) (fun fs h => by cases h),
   C9_error_handling.2.2 [] [] [] "Bad" (.str "zzz") [] [] rfl rfl⟩

/-- The record the German dedup pass produces for the duplicate-qid
scenario of the spec. -/
def dedupMergedEx : Obj :=
  [("id", .str "mp_de_Q1"), ("qid", .str "Q1"), ("name", .str "Alice"),
   ("country", .str "Germany"), ("countryCode", .str "DE"), ("level", .str "national"),
   ("institution", .str "Bundestag"), ("role", .str "MP"), ("party", .str "linke"),
   ("email", .str "a@ex.eu"), ("usesX", .bool false), ("xHandle", .null)]

/-- C4 counterexample: in the dedup pass two rows with the same qid do merge
into one record carrying both fields, but the script's only output lines
are the three summary counts — no emitted line mentions the duplicate key
`Q1`, so no duplicate diagnostic is emitted even once; in the overrides
script the index pass emits the duplicate-id warning once but does not
merge — both records remain in the output. -/
theorem C4_duplicate_merge_counterexample :
    dedupRun [.obj [("qid", .str "Q1"), ("name", .str "Alice"), ("email", .str "a@ex.eu")],
              .obj [("qid", .str "Q1"), ("party", .str "Die Linke")]] =
      .ok ([dedupMergedEx], ["Raw rows: 2", "Unique MPs: 1", "MPs with X: 0"]) ∧
    getD dedupMergedEx "email" = .str "a@ex.eu" ∧
    getD dedupMergedEx "party" = .str "linke" ∧
    (["Raw rows: 2", "Unique MPs: 1", "MPs with X: 0"].filter
        (fun d => (splitOnL d.data ("Q1" : String).data).length > 1)).length = 0 ∧
    mainRun (.arr [.obj [("id", .str "A"), ("email", .str "a@ex.eu")],
                   .obj [("id", .str "A"), ("party", .str "S&D")]]) (.obj []) =
      .ok ([[("id", .str "A"), ("email", .str "a@ex.eu"),
             ("usesX", .bool false), ("xHandle", .null)],
            [("id", .str "A"), ("party", .str "S&D"),
             ("usesX", .bool false), ("xHandle", .null)]],
           ["[WARN] Duplicate id in base data: A"]) ∧
    ([[("id", JVal.str "A"), ("email", JVal.str "a@ex.eu"),
       ("usesX", JVal.bool false), ("xHandle", JVal.null)],
      [("id", JVal.str "A"), ("party", JVal.str "S&D"),
       ("usesX", JVal.bool false), ("xHandle", JVal.null)]] : List Obj).length = 2 :=
  ⟨rfl, rfl, rfl, rfl, rfl, rfl⟩

/-- C4 amended: in the dedup pass, two rows resolving to the same qid (one
supplying a nonempty email, the other a nonempty party) merge fill-if-empty
into one canonical record carrying both values, and the emitted lines are
exactly the three summary counts — no per-duplicate diagnostic exists. -/
theorem C4_duplicate_merge_amended (q nm em pty : String)
    (hem : em.data.isEmpty = false)
    (hmt : pyStartsWith em "mailto:" = false)
    (hpty : pty.data.isEmpty = false) :
    dedupRun [.obj [("qid", .str q), ("name", .str nm), ("email", .str em)],
              .obj [("qid", .str q), ("party", .str pty)]] =
      .ok ([setF (setF (baseMp (.str q) [("qid", .str q), ("name", .str nm), ("email", .str em)])
              "email" (.str em)) "party" (mapParty (.str pty))],
           ["Raw rows: 2", "Unique MPs: 1", "MPs with X: 0"]) ∧
    getD (setF (setF (baseMp (.str q) [("qid", .str q), ("name", .str nm), ("email", .str em)])
        "email" (.str em)) "party" (mapParty (.str pty))) "email" = .str em ∧
    getD (setF (setF (baseMp (.str q) [("qid", .str q), ("name", .str nm), ("email", .str em)])
        "email" (.str em)) "party" (mapParty (.str pty))) "party" = mapParty (.str pty) := by
  set row1 : Obj := [("qid", .str q), ("name", .str nm), ("email", .str em)] with hrow1
  set row2 : Obj := [("qid", .str q), ("party", .str pty)] with hrow2
  set rec1 : Obj := setF (baseMp (.str q) row1) "email" (.str em) with hrec1
  set rec2 : Obj := setF rec1 "party" (mapParty (.str pty)) with hrec2
  have hm1 : mergeInto (baseMp (.str q) row1) row1 = .ok rec1 := by
    simp [hrow1, hrec1, mergeInto, mergeParty, mergeEmail, mergeUses, baseMp, getD, getItem,
      List.find?, truthy, usesTrigger, jeq, hem, hmt, pyStr]
  have hm2 : mergeInto rec1 row2 = .ok rec2 := by
    simp [hrow1, hrow2, hrec1, hrec2, mergeInto, mergeParty, mergeEmail, mergeUses, baseMp,
      getD, getItem, List.find?, truthy, usesTrigger, jeq, hem, hmt, hpty, pyStr, setF]
  have hstep1 : dedupStep [] (.obj row1) = .ok [(.str q, rec1)] := by
    simp [dedupStep, getItem, List.find?, hashable, lookupAssoc, hm1, hrow1]
  have hstep2 : dedupStep [(.str q, rec1)] (.obj row2) = .ok [(.str q, rec2)] := by
    simp [dedupStep, getItem, List.find?, hashable, lookupAssoc, jeq_str_refl, hm2,
      updateAssoc, hrow2]
  have husesx : truthy (getD rec2 "usesX") = false := by
    rw [hrec2, getD_setF_other _ _ _ _ (by decide), hrec1,
      getD_setF_other _ _ _ _ (by decide)]
    rfl
  have hfold : List.foldlM dedupStep ([] : List (JVal × Obj))
      [.obj row1, .obj row2] = .ok [(.str q, rec2)] := by
    simp [List.foldlM, hstep1, hstep2, Except.bind, bind, pure, Except.pure]
  refine ⟨?_, ?_, ?_⟩
  · unfold dedupRun
    rw [hfold]
    simp [List.filter, husesx]
    exact ⟨rfl, rfl, rfl⟩
  · rw [hrec2, getD_setF_other _ _ _ _ (by decide), hrec1, getD_setF_same]
  · rw [hrec2, getD_setF_same]

/-- C4 amended witness: the concrete duplicate-qid scenario, with the party
label mapped through `PARTY_MAP`. -/
theorem C4_duplicate_merge_amended_witness :
    dedupRun [.obj [("qid", .str "Q1"), ("name", .str "Alice"), ("email", .str "a@ex.eu")],
              .obj [("qid", .str "Q1"), ("party", .str "Die Linke")]] =
      .ok ([setF (setF (baseMp (.str "Q1")
                [("qid", .str "Q1"), ("name", .str "Alice"), ("email", .str "a@ex.eu")])
              "email" (.str "a@ex.eu")) "party" (mapParty (.str "Die Linke"))],
           ["Raw rows: 2", "Unique MPs: 1", "MPs with X: 0"]) ∧
    getD (setF (setF (baseMp (.str "Q1")
          [("qid", .str "Q1"), ("name", .str "Alice"), ("email", .str "a@ex.eu")])
        "email" (.str "a@ex.eu")) "party" (mapParty (.str "Die Linke"))) "email" =
      .str "a@ex.eu" ∧
    getD (setF (setF (baseMp (.str "Q1")
          [("qid", .str "Q1"), ("name", .str "Alice"), ("email", .str "a@ex.eu")])
        "email" (.str "a@ex.eu")) "party" (mapParty (.str "Die Linke"))) "party" =
      mapParty (.str "Die Linke") :=
  C4_duplicate_merge_amended "Q1" "Alice" "a@ex.eu" "Die Linke" rfl rfl rfl
